import Mathlib

/-!
Verification of the Catan rules engine (`game/game.py`, `game/player.py`,
`game/board.py`, `game/constants.py`).

The Python code is shallowly embedded: each rules-engine method becomes a Lean
function over an explicit game state.  Python exceptions (`raise ValueError`,
failed `assert`, dict `KeyError`) become an `Err` value returned next to the
state; since Python mutates objects in place before an exception can escape, an
operation returns the (possibly partially mutated) state together with
`Option Err`, where `none` means success.
-/

set_option maxRecDepth 10000

/-- Python exception kinds raised by the rules engine. -/
inductive Err where
  | valueError (msg : String)
  | assertionError (msg : String)
  | keyError (key : String)
deriving DecidableEq, Repr

/-- Modelled from the spec: the file `game/development_cards.py` is absent from
the snapshot; its enum has the five development-card kinds
(knight, victory point, road building, year of plenty, monopoly). -/
inductive DevCard where
  | knight
  | victoryPoint
  | roadBuilding
  | yearOfPlenty
  | monopoly
deriving DecidableEq, Repr

/-- Per-player development-card counts (`player.development_cards`),
one counter per card kind. -/
structure DevCards where
  knight : Nat
  victoryPoint : Nat
  roadBuilding : Nat
  yearOfPlenty : Nat
  monopoly : Nat
deriving DecidableEq, Repr

/-- Constant `RESOURCE_TYPES` from `game/constants.py` (note that it includes
`"desert"`). -/
def RESOURCE_TYPES : List String := ["wood", "brick", "sheep", "wheat", "ore", "desert"]

/-- A Python `dict[str, int]` as an association list in insertion order. -/
def Resources := List (String × Int)

instance : DecidableEq Resources := by
  unfold Resources
  infer_instance

instance : Repr Resources := by
  unfold Resources
  infer_instance

/-- Dict read `d[k]`: `none` models a `KeyError`. -/
def rGet : Resources → String → Option Int
  | [], _ => none
  | kv :: rest, k => if kv.1 = k then some kv.2 else rGet rest k

/-- Dict write to an existing key (`d[k] = v` for `k` already present;
a write to an absent key never happens in the embedded code paths). -/
def rSet : Resources → String → Int → Resources
  | [], _, _ => []
  | kv :: rest, k, v => if kv.1 = k then (kv.1, v) :: rest else kv :: rSet rest k v

/-- Dict update `d[k] += n`; `none` models the `KeyError` raised when `k`
is absent. -/
def rAdd (r : Resources) (k : String) (n : Int) : Option Resources :=
  match rGet r k with
  | none => none
  | some v => some (rSet r k (v + n))

/-- Python `sum(d.values())`. -/
def sumRes (r : Resources) : Int :=
  (List.map (fun kv => kv.2) r).sum

/-- The fresh resource inventory from `Player.__init__`: five resource
counters, no `"desert"` entry. -/
def initResources : Resources :=
  [("wood", 0), ("brick", 0), ("sheep", 0), ("wheat", 0), ("ore", 0)]

/-- Player state (`game/player.py`): resources, building/road references
(vertices and edges by id), victory points, development cards. -/
structure PlayerSt where
  resources : Resources
  settlements : List Nat
  cities : List Nat
  roads : List (Nat × Nat)
  victoryPoints : Int
  devCards : DevCards
deriving DecidableEq, Repr

/-- A fresh player from `Player.__init__`. -/
def initPlayer : PlayerSt :=
  { resources := initResources
    settlements := []
    cities := []
    roads := []
    victoryPoints := 0
    devCards := ⟨0, 0, 0, 0, 0⟩ }

/-- A hex tile (`game/board.py` `Tile`): resource type, axial coordinate,
optional number token, surrounding vertex ids. -/
structure Tile where
  resource : String
  cord : Int × Int
  number : Option Nat
  vertices : List Nat
deriving DecidableEq, Repr

/-- Board shape and limits.  The adjacency map, edge list, caps and the port
table are fixed per game; the cap values and the port table come from
`game/constants.py` entries absent from the snapshot, so they stay abstract
parameters here (every theorem quantifies over them). -/
structure Cfg where
  maxSettlements : Nat
  maxCities : Nat
  maxRoads : Nat
  vertexIds : List Nat
  adj : Nat → List Nat
  edges : List (Nat × Nat)
  ports : String → List Nat
  tiles : List Tile

/-- Association-list read for occupancy maps (vertex id or edge id to player
index). -/
def aGet {α : Type} [DecidableEq α] : List (α × Nat) → α → Option Nat
  | [], _ => none
  | kv :: rest, k => if kv.1 = k then some kv.2 else aGet rest k

/-- Association-list write (overwrite the key if present, append it
otherwise — Python dict assignment). -/
def aSet {α : Type} [DecidableEq α] : List (α × Nat) → α → Nat → List (α × Nat)
  | [], k, v => [(k, v)]
  | kv :: rest, k, v => if kv.1 = k then (k, v) :: rest else kv :: aSet rest k v

/-- Whole-game mutable state (`Game` plus the mutable parts of `Board` and the
`Player` objects; players are addressed by list index). -/
structure GameSt where
  players : List PlayerSt
  settlementAt : List (Nat × Nat)
  cityAt : List (Nat × Nat)
  roadAt : List ((Nat × Nat) × Nat)
  robber : Int × Int
  longestRoad : Nat
  longestRoadPlayer : Option Nat
deriving DecidableEq, Repr

/-- Read player `p` (callers of the Python methods always pass a real player
object; theorems carry `p < players.length`). -/
def getPlayer (s : GameSt) (p : Nat) : PlayerSt :=
  s.players.getD p initPlayer

/-- Apply `f` to player `p` in place. -/
def mapPlayer (s : GameSt) (p : Nat) (f : PlayerSt → PlayerSt) : GameSt :=
  { s with players := s.players.set p (f (getPlayer s p)) }

/-! ## Longest-road evaluator (`_calculate_player_longest_road`) -/

/-- Python `tuple(sorted((a, b)))`. -/
def sortPair (a b : Nat) : Nat × Nat :=
  if a ≤ b then (a, b) else (b, a)

/-- The `defaultdict` adjacency built from the player's road list:
`adjacency[v]` lists the road-connected neighbours of `v` in insertion
order. -/
def adjOf (roads : List (Nat × Nat)) (v : Nat) : List Nat :=
  roads.foldl
    (fun acc e =>
      let acc1 := if e.1 = v then acc ++ [e.2] else acc
      if e.2 = v then acc1 ++ [e.1] else acc1)
    []

/-- The adjacency keys in first-insertion order (the vertices incident to at
least one of the player's roads). -/
def adjKeys (roads : List (Nat × Nat)) : List Nat :=
  (roads.foldl (fun acc e => acc ++ [e.1, e.2]) []).foldl
    (fun acc v => if v ∈ acc then acc else acc ++ [v]) []

/-- The recursive `dfs` of `_calculate_player_longest_road`.  `blocked v` says
vertex `v` carries an opponent settlement.  The fuel only bounds recursion
depth; every recursive call adds one edge to `visitedE`, so
`roads.length + 1` fuel is always enough. -/
def dfsLR (adjacency : Nat → List Nat) (blocked : Nat → Bool) (start : Nat) :
    Nat → Nat → List (Nat × Nat) → List Nat → Nat
  | 0, _, _, _ => 0
  | fuel + 1, current, visitedE, visitedV =>
    if current ∈ visitedV ∨ (blocked current ∧ current ≠ start) then 0
    else
      (adjacency current).foldl
        (fun best nb =>
          let et := sortPair current nb
          if et ∈ visitedE then best
          else max best (1 + dfsLR adjacency blocked start fuel nb (et :: visitedE)
            (current :: visitedV)))
        0

/-- Function `_calculate_player_longest_road`, as a function of the player's road-edge
list and the opponent-occupancy predicate: the maximum of a depth-first search
from every incident vertex. -/
def calcLongestRoad (roads : List (Nat × Nat)) (blocked : Nat → Bool) : Nat :=
  (adjKeys roads).foldl
    (fun best start =>
      max best (dfsLR (adjOf roads) blocked start (roads.length + 1) start [] []))
    0

/-- Opponent occupancy for player `p` read off the board, as used by the DFS:
the vertex holds a settlement belonging to someone else. -/
def blockedFor (s : GameSt) (p : Nat) (v : Nat) : Bool :=
  match aGet s.settlementAt v with
  | some q => q ≠ p
  | none => false

/-! ## Longest-road award bookkeeping (`_update_longest_road`) -/

/-- The state update performed by `_update_longest_road` once the player's new
longest-road length `len` has been computed. -/
def updateLongestRoadWith (len : Nat) (p : Nat) (s : GameSt) : GameSt :=
  if s.longestRoad < len then
    let s1 := { s with longestRoad := len }
    if 5 ≤ len then
      let s2 := mapPlayer s1 p (fun pl => { pl with victoryPoints := pl.victoryPoints + 2 })
      let s3 :=
        match s2.longestRoadPlayer with
        | some h => mapPlayer s2 h (fun pl => { pl with victoryPoints := pl.victoryPoints - 2 })
        | none => s2
      { s3 with longestRoadPlayer := some p }
    else s1
  else if s.longestRoadPlayer = some p ∧ len < s.longestRoad then
    let s1 :=
      if len < 5 then
        { mapPlayer s p (fun pl => { pl with victoryPoints := pl.victoryPoints - 2 }) with
            longestRoadPlayer := none }
      else s
    { s1 with longestRoad := len }
  else s

/-- Method `_update_longest_road`: recompute the length, then update the award. -/
def updateLongestRoad (p : Nat) (s : GameSt) : GameSt :=
  updateLongestRoadWith (calcLongestRoad (getPlayer s p).roads (blockedFor s p)) p s

/-! ## Settlement, road and city placement -/

/-- Method `_road_is_connected`: the edge shares a vertex with one of the
player's settlements or with one of the player's existing roads. -/
def roadIsConnected (s : GameSt) (p : Nat) (e : Nat × Nat) : Bool :=
  (aGet s.settlementAt e.1 = some p) || (aGet s.settlementAt e.2 = some p) ||
    (getPlayer s p).roads.any
      (fun r => r.1 = e.1 || r.1 = e.2 || r.2 = e.1 || r.2 = e.2)

/-- Method `_place_settlement` (checks in source order: vertex exists, vertex
free, no adjacent settlement, settlement cap, resources unless initial; then
mutate and rerun the longest-road update for every player). -/
def placeSettlement (cfg : Cfg) (p : Nat) (v : Nat) (initialPlacement : Bool)
    (s : GameSt) : GameSt × Option Err :=
  if v ∉ cfg.vertexIds then
    (s, some (.assertionError "Vertex does not exist on the board"))
  else if (aGet s.settlementAt v).isSome then
    (s, some (.valueError "Vertex already has a settlement"))
  else if ((cfg.adj v).find? (fun a => (aGet s.settlementAt a).isSome)).isSome then
    (s, some (.valueError "There is settlement on adjacent vertex"))
  else if cfg.maxSettlements ≤ (getPlayer s p).settlements.length then
    (s, some (.valueError "Player has too many settlements"))
  else
    let pay : GameSt × Option Err → GameSt × Option Err := fun acc =>
      match acc with
      | (_, some _) => acc
      | (s0, none) =>
        let s1 := { s0 with settlementAt := aSet s0.settlementAt v p }
        let s2 := mapPlayer s1 p (fun pl =>
          { pl with settlements := pl.settlements ++ [v] })
        let s3 :=
          if initialPlacement then s2
          else
            mapPlayer s2 p (fun pl =>
              let r1 := rSet pl.resources "wood" ((rGet pl.resources "wood").getD 0 - 1)
              let r2 := rSet r1 "brick" ((rGet r1 "brick").getD 0 - 1)
              let r3 := rSet r2 "sheep" ((rGet r2 "sheep").getD 0 - 1)
              let r4 := rSet r3 "wheat" ((rGet r3 "wheat").getD 0 - 1)
              { pl with resources := r4 })
        let s4 := mapPlayer s3 p (fun pl =>
          { pl with victoryPoints := pl.victoryPoints + 1 })
        let s5 := (List.range s4.players.length).foldl
          (fun st q => updateLongestRoad q st) s4
        (s5, none)
    if initialPlacement then
      pay (s, none)
    else
      match rGet (getPlayer s p).resources "wood" with
      | none => (s, some (.keyError "wood"))
      | some w =>
        if w < 1 then
          (s, some (.valueError "Player does not have enough resources to place a settlement"))
        else
          match rGet (getPlayer s p).resources "brick" with
          | none => (s, some (.keyError "brick"))
          | some b =>
            if b < 1 then
              (s, some (.valueError "Player does not have enough resources to place a settlement"))
            else
              match rGet (getPlayer s p).resources "sheep" with
              | none => (s, some (.keyError "sheep"))
              | some sh =>
                if sh < 1 then
                  (s, some (.valueError "Player does not have enough resources to place a settlement"))
                else
                  match rGet (getPlayer s p).resources "wheat" with
                  | none => (s, some (.keyError "wheat"))
                  | some wh =>
                    if wh < 1 then
                      (s, some (.valueError "Player does not have enough resources to place a settlement"))
                    else pay (s, none)

/-- The tail of `_place_road` after the edge, occupancy, cap and resource
checks: the connectivity check, then the mutation (mark the edge, append to
the player's road list, pay unless the placement is free, update the longest
road for the acting player). -/
def placeRoadCore (p : Nat) (e : Nat × Nat) (initialPlacement : Bool)
    (s : GameSt) : GameSt × Option Err :=
  if ¬ roadIsConnected s p e then
    (s, some (.valueError "Road must connect to the player's existing roads or settlements."))
  else
    let s1 := { s with roadAt := aSet s.roadAt e p }
    let s2 := mapPlayer s1 p (fun pl => { pl with roads := pl.roads ++ [e] })
    let s3 :=
      if initialPlacement then s2
      else
        mapPlayer s2 p (fun pl =>
          let r1 := rSet pl.resources "wood" ((rGet pl.resources "wood").getD 0 - 1)
          let r2 := rSet r1 "brick" ((rGet r1 "brick").getD 0 - 1)
          { pl with resources := r2 })
    (updateLongestRoad p s3, none)

/-- Method `_place_road` (checks in source order: edge exists, edge free, road
cap, resources unless initial, connectivity; then mutate, pay and update the
longest road for the acting player). -/
def placeRoad (cfg : Cfg) (p : Nat) (e : Nat × Nat) (initialPlacement : Bool)
    (s : GameSt) : GameSt × Option Err :=
  if e ∉ cfg.edges then
    (s, some (.assertionError "Edge does not exist on the board"))
  else if (aGet s.roadAt e).isSome then
    (s, some (.valueError "Edge already has a road."))
  else if cfg.maxRoads ≤ (getPlayer s p).roads.length then
    (s, some (.valueError "Player has too many roads."))
  else if initialPlacement then
    placeRoadCore p e initialPlacement s
  else
    match rGet (getPlayer s p).resources "wood" with
    | none => (s, some (.keyError "wood"))
    | some w =>
      if w < 1 then
        (s, some (.valueError "Not enough resources to place a road."))
      else
        match rGet (getPlayer s p).resources "brick" with
        | none => (s, some (.keyError "brick"))
        | some b =>
          if b < 1 then
            (s, some (.valueError "Not enough resources to place a road."))
          else placeRoadCore p e initialPlacement s

/-- Method `_place_city` (checks in source order: vertex exists, vertex holds
this player's settlement, no city yet, 2 wheat + 3 ore, city cap; then mark the
city, append to the city list, pay, +1 victory point — the settlement marker
and the settlement list entry are left in place). -/
def placeCity (cfg : Cfg) (p : Nat) (v : Nat) (s : GameSt) : GameSt × Option Err :=
  if v ∉ cfg.vertexIds then
    (s, some (.assertionError "Vertex does not exist on the board"))
  else if aGet s.settlementAt v ≠ some p then
    (s, some (.valueError "Vertex does not have player's settlement"))
  else if (aGet s.cityAt v).isSome then
    (s, some (.valueError "Vertex already has a city"))
  else
    match rGet (getPlayer s p).resources "wheat" with
    | none => (s, some (.keyError "wheat"))
    | some wh =>
      if wh < 2 then
        (s, some (.valueError "Player does not have enough resources to place a city"))
      else
        match rGet (getPlayer s p).resources "ore" with
        | none => (s, some (.keyError "ore"))
        | some o =>
          if o < 3 then
            (s, some (.valueError "Player does not have enough resources to place a city"))
          else if cfg.maxCities ≤ (getPlayer s p).cities.length then
            (s, some (.valueError "Player has too many cities"))
          else
            let s1 := { s with cityAt := aSet s.cityAt v p }
            let s2 := mapPlayer s1 p (fun pl =>
              { pl with
                  cities := pl.cities ++ [v]
                  resources := rSet (rSet pl.resources "wheat" (wh - 2)) "ore" (o - 3)
                  victoryPoints := pl.victoryPoints + 1 })
            (s2, none)

/-! ## Bank trade (`_trade_with_bank`) -/

/-- The rate-selection loop of `_trade_with_bank`: scan the player's
settlements in order; a 2:1 port for the given resource wins immediately,
a 3:1 "any" port sets the rate to 3 and keeps scanning; the default is the
accumulator (4 at the top-level call). -/
def tradeRateLoop (ports : String → List Nat) (giveT : String) :
    List Nat → Nat → Nat
  | [], r => r
  | sid :: rest, r =>
    if sid ∈ ports giveT then 2
    else tradeRateLoop ports giveT rest (if sid ∈ ports "any" then 3 else r)

/-- The trade rate available to a settlement list (starts from the standard
4:1). -/
def tradeRate (ports : String → List Nat) (giveT : String)
    (settlements : List Nat) : Nat :=
  tradeRateLoop ports giveT settlements 4

/-- Method `_trade_with_bank`: validate resource types and amounts, pick the
best port rate, require `amount_to_give == trade_rate`, then check and apply
`total_cost = amount_to_receive * trade_rate`. -/
def tradeWithBank (cfg : Cfg) (p : Nat) (recvT : String) (recvA : Int)
    (giveT : String) (giveA : Int) (s : GameSt) : GameSt × Option Err :=
  if recvT ∉ RESOURCE_TYPES then
    (s, some (.assertionError "Invalid resource type to receive"))
  else if giveT ∉ RESOURCE_TYPES then
    (s, some (.assertionError "Invalid resource type to give"))
  else if recvA ≤ 0 then
    (s, some (.assertionError "Amount to receive must be greater than 0"))
  else if giveA ≤ 0 then
    (s, some (.assertionError "Amount to give must be greater than 0"))
  else
    let rate := tradeRate cfg.ports giveT (getPlayer s p).settlements
    if rate ∉ [2, 3, 4] then
      (s, some (.assertionError "Invalid trade rate"))
    else if giveA ≠ (rate : Int) then
      (s, some (.assertionError "Amount to give must be equal to the trade rate"))
    else
      let totalCost := recvA * (rate : Int)
      match rGet (getPlayer s p).resources giveT with
      | none => (s, some (.keyError giveT))
      | some have0 =>
        if have0 < totalCost then
          (s, some (.valueError "Player does not have enough resources for the trade"))
        else
          let s1 := mapPlayer s p (fun pl =>
            { pl with resources := rSet pl.resources giveT (have0 - totalCost) })
          match rAdd (getPlayer s1 p).resources recvT recvA with
          | none => (s1, some (.keyError recvT))
          | some r2 =>
            (mapPlayer s1 p (fun pl => { pl with resources := r2 }), none)

/-! ## Discard on seven (`Player.slash`) -/

/-- The validation loop of `Player.slash`: for each named resource, in order,
require a known type, a sufficient current amount, and a non-negative
amount. -/
def slashValidate (res : Resources) : List (String × Int) → Option Err
  | [] => none
  | (k, amt) :: rest =>
    match rGet res k with
    | none => some (.assertionError "Invalid resource type")
    | some cur =>
      if cur < amt then some (.assertionError "Not enough resources to slash")
      else if amt < 0 then some (.assertionError "Cannot slash negative amount")
      else slashValidate res rest

/-- The mutation loop of `Player.slash` (runs only after full validation). -/
def slashApply (res : Resources) : List (String × Int) → Resources
  | [] => res
  | (k, amt) :: rest =>
    slashApply (rSet res k ((rGet res k).getD 0 - amt)) rest

/-- Method `Player.slash`: discard-on-seven.  Requires more than 7 total
resources, an exact `floor(total/2)` discard sum, then per-resource validity;
only then removes the resources. -/
def slash (res : Resources) (toSlash : List (String × Int)) :
    Resources × Option Err :=
  let total := sumRes res
  let required := Int.fdiv total 2
  if total ≤ 7 then
    (res, some (.assertionError "Cannot slash if player has 7 or fewer resources"))
  else
    let actual := (toSlash.map (fun kv => kv.2)).sum
    if actual ≠ required then
      (res, some (.assertionError "Must discard exactly half of resources"))
    else
      match slashValidate res toSlash with
      | some e => (res, some e)
      | none => (slashApply res toSlash, none)

/-! ## Resource distribution (`_distribute_resources`) -/

/-- One vertex loop of `_distribute_resources` for one player: gain one unit
of the tile's resource for every tile vertex contained in `owned` (the
player's settlement list or city list).  A missing resource key is a
`KeyError`; increments already made stay applied. -/
def grantForVertices (tileRes : String) (tileVerts : List Nat)
    (owned : List Nat) (res : Resources) : Resources × Option Err :=
  match tileVerts with
  | [] => (res, none)
  | v :: rest =>
    if v ∈ owned then
      match rAdd res tileRes 1 with
      | some r2 => grantForVertices tileRes rest owned r2
      | none => (res, some (.keyError tileRes))
    else grantForVertices tileRes rest owned res

/-- The player loop of `_distribute_resources` for one tile: give 1 per
settled tile vertex and 1 more per citied tile vertex, player by player. -/
def distributeTilePlayers (t : Tile) : List Nat → GameSt → GameSt × Option Err
  | [], s => (s, none)
  | i :: rest, s =>
    let pl := getPlayer s i
    match grantForVertices t.resource t.vertices pl.settlements pl.resources with
    | (r1, some e) => (mapPlayer s i (fun q => { q with resources := r1 }), some e)
    | (r1, none) =>
      match grantForVertices t.resource t.vertices pl.cities r1 with
      | (r2, some e) => (mapPlayer s i (fun q => { q with resources := r2 }), some e)
      | (r2, none) =>
        distributeTilePlayers t rest (mapPlayer s i (fun q => { q with resources := r2 }))

/-- The tile loop of `_distribute_resources`: skip the robber tile, otherwise
run the player loop; a `KeyError` aborts the remaining tiles but keeps all
mutations made so far. -/
def distributeTiles : List Tile → GameSt → GameSt × Option Err
  | [], s => (s, none)
  | t :: rest, s =>
    if t.cord = s.robber then distributeTiles rest s
    else
      match distributeTilePlayers t (List.range s.players.length) s with
      | (s1, some e) => (s1, some e)
      | (s1, none) => distributeTiles rest s1

/-- Method `_distribute_resources` for dice roll `n`: iterate the tiles
bearing number `n` (the `number_tile_dict[n]` bucket), skipping the robber
tile. -/
def distributeResources (cfg : Cfg) (n : Nat) (s : GameSt) : GameSt × Option Err :=
  distributeTiles (cfg.tiles.filter (fun t => t.number = some n)) s

/-! ## Robber, stealing and development-card plays -/

/-- Method `_move_robber`. -/
def moveRobber (coord : Int × Int) (s : GameSt) : GameSt × Option Err :=
  if coord = s.robber then
    (s, some (.valueError "Robber is already on this tile"))
  else
    ({ s with robber := coord }, none)

/-- Method `_steal_resource`.  The random `random.choice` is abstracted as the
oracle `choose`, which picks one string out of the non-empty list of resource
names the victim holds with a positive count. -/
def stealResource (pSteals pLoses : Nat) (choose : List String → String)
    (s : GameSt) : GameSt × Option Err :=
  if pSteals = pLoses then
    (s, some (.valueError "Cannot steal from yourself"))
  else
    let stealable :=
      ((getPlayer s pLoses).resources.filter (fun kv => 0 < kv.2)).map
        (fun kv => kv.1)
    if stealable.isEmpty then
      (s, some (.assertionError "No resources to steal"))
    else
      let r := choose stealable
      match rAdd (getPlayer s pSteals).resources r 1 with
      | none => (s, some (.keyError r))
      | some res1 =>
        let s1 := mapPlayer s pSteals (fun pl => { pl with resources := res1 })
        match rAdd (getPlayer s1 pLoses).resources r (-1) with
        | none => (s1, some (.keyError r))
        | some res2 =>
          (mapPlayer s1 pLoses (fun pl => { pl with resources := res2 }), none)

/-- Method `_use_play_year_of_plenty`: check the card, the list length and the
resource types, then take the card and grant each listed resource.  The grant
loop runs after the card was already removed, so a `KeyError` there (for
example on `"desert"`) leaves the card spent. -/
def useYearOfPlenty (p : Nat) (toReceive : List String) (s : GameSt) :
    GameSt × Option Err :=
  if (getPlayer s p).devCards.yearOfPlenty = 0 then
    (s, some (.assertionError "Player does not have any year of plenty cards"))
  else if toReceive.length ≠ 2 then
    (s, some (.assertionError "Player must choose 2 resources to receive"))
  else if ¬ toReceive.all (fun r => r ∈ RESOURCE_TYPES) then
    (s, some (.assertionError "Invalid resource type"))
  else
    let s1 := mapPlayer s p (fun pl =>
      { pl with devCards := { pl.devCards with yearOfPlenty := pl.devCards.yearOfPlenty - 1 } })
    toReceive.foldl
      (fun acc rt =>
        match acc with
        | (_, some _) => acc
        | (s0, none) =>
          match rAdd (getPlayer s0 p).resources rt 1 with
          | none => (s0, some (.keyError rt))
          | some res1 => (mapPlayer s0 p (fun pl => { pl with resources := res1 }), none))
      (s1, none)

/-- Method `_play_monopoly`: check the card and the resource type, then for
every other player move all of that resource to the acting player; the card is
removed last.  A missing resource key (for example `"desert"`) raises
`KeyError` inside the transfer loop. -/
def playMonopoly (p : Nat) (rt : String) (s : GameSt) : GameSt × Option Err :=
  if (getPlayer s p).devCards.monopoly = 0 then
    (s, some (.assertionError "Player does not have any monopoly cards"))
  else if rt ∉ RESOURCE_TYPES then
    (s, some (.assertionError "Invalid resource type"))
  else
    let transfer := (List.range s.players.length).foldl
      (fun acc i =>
        match acc with
        | (_, some _) => acc
        | (s0, none) =>
          if i = p then (s0, none)
          else
            match rGet (getPlayer s0 p).resources rt with
            | none => (s0, some (Err.keyError rt))
            | some mine =>
              match rGet (getPlayer s0 i).resources rt with
              | none => (s0, some (Err.keyError rt))
              | some theirs =>
                let s1 := mapPlayer s0 p (fun pl =>
                  { pl with resources := rSet pl.resources rt (mine + theirs) })
                let s2 := mapPlayer s1 i (fun pl =>
                  { pl with resources := rSet pl.resources rt 0 })
                (s2, none))
      (s, none)
    match transfer with
    | (s0, some e) => (s0, some e)
    | (s0, none) =>
      (mapPlayer s0 p (fun pl =>
        { pl with devCards := { pl.devCards with monopoly := pl.devCards.monopoly - 1 } }), none)

/-- Method `_play_knight`: after the card/self-target/robber-position asserts
the robber is moved FIRST; the victim checks (non-zero resources, presence on
the robber tile) run only afterwards, and the knight card is removed at the
very end. -/
def playKnight (cfg : Cfg) (coord : Int × Int) (p : Nat) (victim : Option Nat)
    (choose : List String → String) (s : GameSt) : GameSt × Option Err :=
  if (getPlayer s p).devCards.knight = 0 then
    (s, some (.assertionError "Player does not have any knight cards"))
  else if victim = some p then
    (s, some (.assertionError "Cannot steal from yourself"))
  else if coord = s.robber then
    (s, some (.assertionError "Robber is already on the tile"))
  else
    match moveRobber coord s with
    | (s0, some e) => (s0, some e)
    | (s0, none) =>
      let afterSteal : GameSt × Option Err :=
        match victim with
        | none => (s0, none)
        | some q =>
          if sumRes (getPlayer s0 q).resources ≤ 0 then
            (s0, some (.assertionError "Player to steal from does not have any resources"))
          else
            match cfg.tiles.find? (fun t => t.cord = coord) with
            | none => (s0, some (.keyError "tile"))
            | some t =>
              if ¬ (getPlayer s0 q).settlements.any (fun v => v ∈ t.vertices) then
                (s0, some (.assertionError "Player to steal from does not have a settlement on the tile"))
              else
                stealResource p q choose s0
      match afterSteal with
      | (s1, some e) => (s1, some e)
      | (s1, none) =>
        (mapPlayer s1 p (fun pl =>
          { pl with devCards := { pl.devCards with knight := pl.devCards.knight - 1 } }), none)

/-- Method `_play_road_building`: check the card and that at least one edge was
given, then place each requested road in order via `_place_road` with the
resource cost skipped; the card is removed only after every placement
succeeded (an exception part-way leaves the earlier roads placed and the card
count untouched). -/
def playRoadBuilding (cfg : Cfg) (p : Nat) (edgesToBuild : List (Nat × Nat))
    (s : GameSt) : GameSt × Option Err :=
  if (getPlayer s p).devCards.roadBuilding = 0 then
    (s, some (.assertionError "Player does not have any road building cards"))
  else if edgesToBuild.isEmpty then
    (s, some (.assertionError "Player must build at least 1 road"))
  else
    let placed := edgesToBuild.foldl
      (fun acc e =>
        match acc with
        | (_, some _) => acc
        | (s0, none) => placeRoad cfg p e true s0)
      (s, none)
    match placed with
    | (s0, some e) => (s0, some e)
    | (s0, none) =>
      (mapPlayer s0 p (fun pl =>
        { pl with devCards := { pl.devCards with roadBuilding := pl.devCards.roadBuilding - 1 } }), none)

/-! ## Specification-side definition for the longest-road claim -/

/-- The consecutive edges of a vertex sequence, each in canonical (sorted)
form. -/
def seqEdges : List Nat → List (Nat × Nat)
  | a :: b :: rest => sortPair a b :: seqEdges (b :: rest)
  | _ => []

/-- Written from the claim's words, for comparison with the source-derived
`calcLongestRoad`: a road trail of the player is a non-empty vertex sequence
whose consecutive edges all belong to the player's road set, with no edge
reused, and whose internal vertices (everything but the two endpoints) are
free of opponent settlements — an opponent-occupied vertex may only start or
end the trail.  The trail's length is its edge count. -/
def isRoadTrail (roads : List (Nat × Nat)) (blocked : Nat → Bool)
    (vs : List Nat) : Bool :=
  !vs.isEmpty &&
  (seqEdges vs).all (fun e => e ∈ roads.map (fun r => sortPair r.1 r.2)) &&
  decide (seqEdges vs).Nodup &&
  vs.tail.dropLast.all (fun v => !blocked v)

/-! ## Basic lemmas about the dictionary and state helpers -/

theorem rGet_rSet_self (r : Resources) (k : String) (v : Int) :
    rGet (rSet r k v) k = (rGet r k).map (fun _ => v) := by
  induction r with
  | nil => rfl
  | cons kv rest ih =>
    by_cases h : kv.1 = k <;> simp [rGet, rSet, h, ih]

theorem rGet_rSet_other (r : Resources) (k k2 : String) (v : Int) (h : k2 ≠ k) :
    rGet (rSet r k v) k2 = rGet r k2 := by
  have hne : ¬ k = k2 := fun hc => h hc.symm
  induction r with
  | nil => rfl
  | cons kv rest ih =>
    by_cases hk : kv.1 = k
    · simp [rGet, rSet, hk, hne]
    · by_cases hk2 : kv.1 = k2 <;> simp [rGet, rSet, hk, hk2, ih, h, Ne.symm h]

theorem rGet_isSome_rSet (r : Resources) (k k2 : String) (v : Int) :
    (rGet (rSet r k v) k2).isSome = (rGet r k2).isSome := by
  by_cases h : k2 = k
  · subst h
    rw [rGet_rSet_self]
    cases rGet r k2 <;> rfl
  · rw [rGet_rSet_other _ _ _ _ h]

theorem aGet_aSet_self {α : Type} [DecidableEq α] (m : List (α × Nat)) (k : α)
    (v : Nat) : aGet (aSet m k v) k = some v := by
  induction m with
  | nil => simp [aGet, aSet]
  | cons kv rest ih =>
    by_cases h : kv.1 = k <;> simp [aGet, aSet, h, ih]

theorem aGet_aSet_other {α : Type} [DecidableEq α] (m : List (α × Nat)) (k k2 : α)
    (v : Nat) (h : k2 ≠ k) : aGet (aSet m k v) k2 = aGet m k2 := by
  have hne : ¬ k = k2 := fun hc => h hc.symm
  induction m with
  | nil => simp [aGet, aSet, hne]
  | cons kv rest ih =>
    by_cases hk : kv.1 = k
    · have hne2 : ¬ kv.1 = k2 := fun hc => hne (hk ▸ hc)
      simp [aGet, aSet, hk, hne, hne2]
    · by_cases hk2 : kv.1 = k2 <;> simp [aGet, aSet, hk, hk2, ih, h, Ne.symm h]

theorem mapPlayer_length (s : GameSt) (p : Nat) (f : PlayerSt → PlayerSt) :
    (mapPlayer s p f).players.length = s.players.length := by
  simp [mapPlayer]

theorem getPlayer_mapPlayer_self (s : GameSt) (p : Nat) (f : PlayerSt → PlayerSt)
    (h : p < s.players.length) : getPlayer (mapPlayer s p f) p = f (getPlayer s p) := by
  simp [getPlayer, mapPlayer, List.getD_eq_getElem?_getD, List.getElem?_set_self, h]

theorem getPlayer_mapPlayer_other (s : GameSt) (p q : Nat) (f : PlayerSt → PlayerSt)
    (h : q ≠ p) : getPlayer (mapPlayer s p f) q = getPlayer s q := by
  simp [getPlayer, mapPlayer, List.getD_eq_getElem?_getD, List.getElem?_set_ne (Ne.symm h)]

/-! ## Concrete fixtures -/

/-- An adjacency map with no neighbours. -/
def trivialAdj : Nat → List Nat := fun _ => []

/-- A port table with no port vertices. -/
def noPorts : String → List Nat := fun _ => []

/-- A fixed resolution of `random.choice` (never reached in the scenarios
below). -/
def anyChoose : List String → String := fun _ => ""

/-- A small baseline configuration (caps use the standard Catan values; the
theorems that depend on a cap quantify over it instead). -/
def baseCfg : Cfg :=
  { maxSettlements := 5
    maxCities := 4
    maxRoads := 15
    vertexIds := []
    adj := trivialAdj
    edges := []
    ports := noPorts
    tiles := [] }

/-- A two-player state with an empty board. -/
def emptyOccSt : GameSt :=
  { players := [initPlayer, initPlayer]
    settlementAt := []
    cityAt := []
    roadAt := []
    robber := (0, 0)
    longestRoad := 0
    longestRoadPlayer := none }

/-- Roads forming a 3-edge chain. -/
def chain3Roads : List (Nat × Nat) := [(0, 1), (1, 2), (2, 3)]

/-- Roads forming a 6-edge simple cycle. -/
def cycle6Roads : List (Nat × Nat) := [(0, 1), (1, 2), (2, 3), (3, 4), (4, 5), (0, 5)]

/-- The 6-edge cycle plus a 1-edge tail. -/
def cycleTailRoads : List (Nat × Nat) := cycle6Roads ++ [(5, 14)]

/-- A straight 8-edge road through vertices 0..8. -/
def chain8Roads : List (Nat × Nat) :=
  [(0, 1), (1, 2), (2, 3), (3, 4), (4, 5), (5, 6), (6, 7), (7, 8)]

/-- Player 1's settlement sits on vertex 4, the midpoint of the 8-chain. -/
def cutSt : GameSt := { emptyOccSt with settlementAt := [(4, 1)] }

/-- Two disjoint 6-cycles (two hexagons of the board) joined by the single
bridge edge `(0, 6)` — 13 edges in total, within the 15-road cap. -/
def twoLoopRoads : List (Nat × Nat) :=
  [(0, 1), (1, 2), (2, 3), (3, 4), (4, 5), (0, 5), (0, 6),
   (6, 7), (7, 8), (8, 9), (9, 10), (10, 11), (6, 11)]

/-- A no-edge-reused trail through all 13 edges of `twoLoopRoads`: around the
first hexagon, over the bridge, around the second hexagon. -/
def twoLoopTrail : List Nat := [0, 1, 2, 3, 4, 5, 0, 6, 7, 8, 9, 10, 11, 6]

/-! ## C1 — longest road -/

/-- C1 (counterexample): `_calculate_player_longest_road` does NOT return the
length of the longest no-edge-reuse path for every road set.  On two 6-cycles
joined by a bridge edge (13 roads, a legal road network), a 13-edge trail
exists that reuses no edge and passes through no opponent settlement, yet the
function returns 12: its search never revisits a vertex except on a final
closing edge, so a trail that crosses the bridge-end vertex twice is
missed. -/
theorem c1_counterexample :
    isRoadTrail twoLoopRoads (blockedFor emptyOccSt 0) twoLoopTrail = true ∧
    twoLoopTrail.length - 1 = 13 ∧
    calcLongestRoad twoLoopRoads (blockedFor emptyOccSt 0) = 12 := by
  decide

/- The amended C1 claim theorem `c1_longest_road_amended` appears after the
characterization lemmas at the end of the file. -/

/-! ## C10 — the "desert" validation gap -/

/-- A player holding one Year-of-Plenty and one Monopoly card. -/
def c10St : GameSt :=
  { emptyOccSt with
      players := [{ initPlayer with devCards := ⟨0, 0, 0, 1, 1⟩ }, initPlayer] }

/-- C10: `"desert"` is a member of `RESOURCE_TYPES`, so it passes the
resource-type validation of `_use_play_year_of_plenty` and `_play_monopoly`,
but a player's inventory (from `Player.__init__`) has no `"desert"` entry, so
both operations fault with a `KeyError` on an input that passed every
validation check — the grant/transfer step is not total over validated
inputs. -/
theorem c10_desert_key_fault :
    "desert" ∈ RESOURCE_TYPES ∧
    rGet initResources "desert" = none ∧
    (useYearOfPlenty 0 ["desert", "desert"] c10St).2 = some (Err.keyError "desert") ∧
    (playMonopoly 0 "desert" c10St).2 = some (Err.keyError "desert") := by
  decide

/-! ## C5 — road building places more than two roads -/

/-- A 4-vertex path board; player 0 has a settlement on vertex 0 and one
Road-Building card. -/
def c5Cfg : Cfg :=
  { baseCfg with
      vertexIds := [0, 1, 2, 3]
      edges := [(0, 1), (1, 2), (2, 3)] }

/-- State for the Road-Building scenario. -/
def c5St : GameSt :=
  { emptyOccSt with
      players := [{ initPlayer with settlements := [0], devCards := ⟨0, 0, 1, 0, 0⟩ },
                  initPlayer]
      settlementAt := [(0, 0)] }

/-- C5: `_play_road_building` never checks an upper bound on
`edges_to_build`, contradicting its own docstring ("up to two roads",
"max 2"): with one Road-Building card and three connectable free edges the
call succeeds, places THREE roads, and removes one card. -/
theorem c5_road_building_three_roads :
    (playRoadBuilding c5Cfg 0 [(0, 1), (1, 2), (2, 3)] c5St).2 = none ∧
    (getPlayer (playRoadBuilding c5Cfg 0 [(0, 1), (1, 2), (2, 3)] c5St).1 0).roads =
      [(0, 1), (1, 2), (2, 3)] ∧
    (getPlayer (playRoadBuilding c5Cfg 0 [(0, 1), (1, 2), (2, 3)] c5St).1 0).devCards.roadBuilding = 0 := by
  decide

/-! ## C3 — failed operations that already mutated state -/

/-- Robber scenario: player 0 holds a knight card; player 1 (the intended
victim) holds zero resources. -/
def c3St : GameSt :=
  { emptyOccSt with
      players := [{ initPlayer with devCards := ⟨1, 0, 0, 0, 0⟩ }, initPlayer] }

/-- C3 (counterexample): a failing Rules-Engine operation that HAS mutated
state.  `_play_knight` moves the robber before checking the victim, so when
the victim holds zero resources the call raises, yet the robber has already
moved from `(0, 0)` to `(1, 1)`. -/
theorem c3_counterexample :
    ((playKnight baseCfg (1, 1) 0 (some 1) anyChoose c3St).2).isSome ∧
    (playKnight baseCfg (1, 1) 0 (some 1) anyChoose c3St).1.robber = (1, 1) ∧
    c3St.robber = (0, 0) := by
  decide

/-! ## C4 — city placement keeps the settlement slot -/

/-- City scenario: player 0 has a settlement on vertex 3, 2 wheat and
3 ore. -/
def c4Cfg : Cfg := { baseCfg with vertexIds := [3] }

/-- State for the city-upgrade scenario. -/
def c4St : GameSt :=
  { emptyOccSt with
      players := [{ initPlayer with
                      settlements := [3]
                      resources := [("wood", 0), ("brick", 0), ("sheep", 0),
                                    ("wheat", 2), ("ore", 3)] },
                  initPlayer]
      settlementAt := [(3, 0)] }

/-- C4 (counterexample): after a successful `_place_city` the vertex does NOT
leave the player's settlement list and keeps its settlement marker, so the
vertex simultaneously holds a live settlement slot and a city — contradicting
both the vacate-bookkeeping clause and the stated invariant. -/
theorem c4_counterexample :
    (placeCity c4Cfg 0 3 c4St).2 = none ∧
    (getPlayer (placeCity c4Cfg 0 3 c4St).1 0).settlements = [3] ∧
    (getPlayer (placeCity c4Cfg 0 3 c4St).1 0).cities = [3] ∧
    aGet (placeCity c4Cfg 0 3 c4St).1.settlementAt 3 = some 0 ∧
    aGet (placeCity c4Cfg 0 3 c4St).1.cityAt 3 = some 0 := by
  decide

/-! ## C6 — distance rule checks settlement markers only -/

/-- Distance-rule scenario: two adjacent vertices 0 and 1; vertex 1 carries a
city marker of player 1 but no settlement marker. -/
def c6Cfg : Cfg :=
  { baseCfg with
      vertexIds := [0, 1]
      adj := fun v => if v = 0 then [1] else if v = 1 then [0] else [] }

/-- State for the distance-rule scenario. -/
def c6St : GameSt := { emptyOccSt with cityAt := [(1, 1)] }

/-- C6 (counterexample): `_place_settlement` only inspects the `settlement`
field of adjacent vertices, never `city`; on a board state where the adjacent
vertex 1 carries a bare city marker the placement at vertex 0 SUCCEEDS
instead of failing with the adjacency error. -/
theorem c6_counterexample :
    (1 ∈ c6Cfg.adj 0) ∧
    aGet c6St.cityAt 1 = some 1 ∧
    (placeSettlement c6Cfg 0 0 true c6St).2 = none ∧
    aGet (placeSettlement c6Cfg 0 0 true c6St).1.settlementAt 0 = some 0 := by
  decide

/-! ## Structural preservation lemmas -/

theorem getPlayer_mapPlayer_oob (s : GameSt) (p : Nat) (f : PlayerSt → PlayerSt)
    (h : s.players.length ≤ p) : getPlayer (mapPlayer s p f) p = getPlayer s p := by
  simp [getPlayer, mapPlayer, List.set_eq_of_length_le h]

theorem getPlayer_devCards_mapPlayer (s : GameSt) (j i : Nat) (f : PlayerSt → PlayerSt)
    (hf : ∀ pl, (f pl).devCards = pl.devCards) :
    (getPlayer (mapPlayer s j f) i).devCards = (getPlayer s i).devCards := by
  by_cases h : i = j
  · subst h
    by_cases hlen : i < s.players.length
    · rw [getPlayer_mapPlayer_self _ _ _ hlen, hf]
    · rw [getPlayer_mapPlayer_oob _ _ _ (Nat.le_of_not_lt hlen)]
  · rw [getPlayer_mapPlayer_other _ _ _ _ h]

theorem mapPlayer_longestRoadPlayer (s : GameSt) (p : Nat) (f : PlayerSt → PlayerSt) :
    (mapPlayer s p f).longestRoadPlayer = s.longestRoadPlayer := rfl

theorem mapPlayer_longestRoad (s : GameSt) (p : Nat) (f : PlayerSt → PlayerSt) :
    (mapPlayer s p f).longestRoad = s.longestRoad := rfl

theorem mapPlayer_roadAt (s : GameSt) (p : Nat) (f : PlayerSt → PlayerSt) :
    (mapPlayer s p f).roadAt = s.roadAt := rfl

theorem mapPlayer_settlementAt (s : GameSt) (p : Nat) (f : PlayerSt → PlayerSt) :
    (mapPlayer s p f).settlementAt = s.settlementAt := rfl

theorem mapPlayer_cityAt (s : GameSt) (p : Nat) (f : PlayerSt → PlayerSt) :
    (mapPlayer s p f).cityAt = s.cityAt := rfl

theorem mapPlayer_robber (s : GameSt) (p : Nat) (f : PlayerSt → PlayerSt) :
    (mapPlayer s p f).robber = s.robber := rfl

theorem getPlayer_devCards_vpAdd (s : GameSt) (j i : Nat) :
    (getPlayer (mapPlayer s j
      (fun pl => { pl with victoryPoints := pl.victoryPoints + 2 })) i).devCards =
      (getPlayer s i).devCards :=
  getPlayer_devCards_mapPlayer s j i _ (fun _ => rfl)

theorem getPlayer_devCards_vpSub (s : GameSt) (j i : Nat) :
    (getPlayer (mapPlayer s j
      (fun pl => { pl with victoryPoints := pl.victoryPoints - 2 })) i).devCards =
      (getPlayer s i).devCards :=
  getPlayer_devCards_mapPlayer s j i _ (fun _ => rfl)

theorem updateLongestRoadWith_roadAt (len p : Nat) (s : GameSt) :
    (updateLongestRoadWith len p s).roadAt = s.roadAt := by
  cases hl : s.longestRoadPlayer <;>
    simp only [updateLongestRoadWith, hl, mapPlayer_longestRoadPlayer, mapPlayer_roadAt] <;>
    split_ifs <;> rfl

theorem updateLongestRoadWith_devCards (len p i : Nat) (s : GameSt) :
    (getPlayer (updateLongestRoadWith len p s) i).devCards =
      (getPlayer s i).devCards := by
  cases hl : s.longestRoadPlayer <;>
    simp only [updateLongestRoadWith, hl, mapPlayer_longestRoadPlayer] <;>
    split_ifs <;>
    first
      | rfl
      | (simp only [show ∀ (s0 : GameSt), getPlayer { s0 with longestRoad := len } i = getPlayer s0 i from fun _ => rfl,
          show ∀ (s0 : GameSt), getPlayer { s0 with longestRoad := len, longestRoadPlayer := none } i = getPlayer s0 i from fun _ => rfl,
          show ∀ (s0 : GameSt) (q : Nat), getPlayer { s0 with longestRoadPlayer := some q } i = getPlayer s0 i from fun _ _ => rfl,
          getPlayer_devCards_vpAdd, getPlayer_devCards_vpSub]
         try rfl)

theorem getPlayer_ext (s1 s2 : GameSt) (h : s1.players = s2.players) (i : Nat) :
    getPlayer s1 i = getPlayer s2 i := by
  unfold getPlayer
  rw [h]

/-! ## C2 — longest-road award transfer -/

/-- C2: with the recomputed length `len` against record `s.longestRoad` and
holder `s.longestRoadPlayer`, `_update_longest_road` (1) on `len` strictly
above the record with `len ≥ 5` sets the record to `len`, makes the player
the holder, adds 2 victory points to the player and subtracts 2 from the
previous holder if any; (2) on `len` strictly above the record but below 5
only updates the record — no points move, no holder is assigned; (3) if the
player is the holder and `len` dropped below the record, the record resets to
`len`, and when `len < 5` the holder additionally loses 2 points and is
cleared; (4) in the same situation with `len ≥ 5` only the record changes and
the holder keeps the award; (5) a tie (`len` equal to the record) changes
nothing at all. -/
theorem c2_longest_road_award (s : GameSt) (len p : Nat) (hp : p < s.players.length) :
    (s.longestRoad < len → 5 ≤ len →
      (updateLongestRoadWith len p s).longestRoad = len ∧
      (updateLongestRoadWith len p s).longestRoadPlayer = some p ∧
      ∀ q, q < s.players.length →
        (getPlayer (updateLongestRoadWith len p s) q).victoryPoints =
          (getPlayer s q).victoryPoints + (if q = p then 2 else 0) -
            (if some q = s.longestRoadPlayer then 2 else 0)) ∧
    (s.longestRoad < len → len < 5 →
      updateLongestRoadWith len p s = { s with longestRoad := len }) ∧
    (s.longestRoadPlayer = some p → len < s.longestRoad → len < 5 →
      updateLongestRoadWith len p s =
        { mapPlayer s p (fun pl => { pl with victoryPoints := pl.victoryPoints - 2 }) with
            longestRoad := len, longestRoadPlayer := none }) ∧
    (s.longestRoadPlayer = some p → len < s.longestRoad → 5 ≤ len →
      updateLongestRoadWith len p s = { s with longestRoad := len }) ∧
    (len = s.longestRoad → updateLongestRoadWith len p s = s) := by
  refine ⟨?_, ?_, ?_, ?_, ?_⟩
  · intro h1 h2
    cases hl : s.longestRoadPlayer with
    | none =>
      have hstate : updateLongestRoadWith len p s =
          { mapPlayer { s with longestRoad := len } p
              (fun pl => { pl with victoryPoints := pl.victoryPoints + 2 }) with
              longestRoadPlayer := some p } := by
        simp only [updateLongestRoadWith, if_pos h1, if_pos h2,
          mapPlayer_longestRoadPlayer, hl]
      rw [hstate]
      refine ⟨rfl, rfl, ?_⟩
      intro q hq
      have hwrap : getPlayer { mapPlayer { s with longestRoad := len } p
          (fun pl => { pl with victoryPoints := pl.victoryPoints + 2 }) with
          longestRoadPlayer := some p } q =
          getPlayer (mapPlayer { s with longestRoad := len } p
            (fun pl => { pl with victoryPoints := pl.victoryPoints + 2 })) q := rfl
      rw [hwrap]
      by_cases hqp : q = p
      · subst hqp
        rw [getPlayer_mapPlayer_self _ _ _ (by simpa using hq)]
        have hbase : getPlayer { s with longestRoad := len } q = getPlayer s q := rfl
        rw [hbase]
        simp
      · rw [getPlayer_mapPlayer_other _ _ _ _ hqp]
        have hbase : getPlayer { s with longestRoad := len } q = getPlayer s q := rfl
        rw [hbase]
        simp [hqp]
    | some h =>
      have hstate : updateLongestRoadWith len p s =
          { mapPlayer (mapPlayer { s with longestRoad := len } p
              (fun pl => { pl with victoryPoints := pl.victoryPoints + 2 })) h
              (fun pl => { pl with victoryPoints := pl.victoryPoints - 2 }) with
              longestRoadPlayer := some p } := by
        simp only [updateLongestRoadWith, if_pos h1, if_pos h2,
          mapPlayer_longestRoadPlayer, hl]
      rw [hstate]
      refine ⟨rfl, rfl, ?_⟩
      intro q hq
      have hwrap : getPlayer { mapPlayer (mapPlayer { s with longestRoad := len } p
          (fun pl => { pl with victoryPoints := pl.victoryPoints + 2 })) h
          (fun pl => { pl with victoryPoints := pl.victoryPoints - 2 }) with
          longestRoadPlayer := some p } q =
          getPlayer (mapPlayer (mapPlayer { s with longestRoad := len } p
            (fun pl => { pl with victoryPoints := pl.victoryPoints + 2 })) h
            (fun pl => { pl with victoryPoints := pl.victoryPoints - 2 })) q := rfl
      rw [hwrap]
      by_cases hqh : q = h
      · subst hqh
        rw [getPlayer_mapPlayer_self _ _ _ (by simpa [mapPlayer] using hq)]
        by_cases hqp : q = p
        · subst hqp
          rw [getPlayer_mapPlayer_self _ _ _ (by simpa using hq)]
          have hbase : getPlayer { s with longestRoad := len } q = getPlayer s q := rfl
          rw [hbase]
          simp
        · rw [getPlayer_mapPlayer_other _ _ _ _ hqp]
          have hbase : getPlayer { s with longestRoad := len } q = getPlayer s q := rfl
          rw [hbase]
          simp [hqp]
      · rw [getPlayer_mapPlayer_other _ _ _ _ hqh]
        by_cases hqp : q = p
        · subst hqp
          rw [getPlayer_mapPlayer_self _ _ _ (by simpa using hq)]
          have hbase : getPlayer { s with longestRoad := len } q = getPlayer s q := rfl
          rw [hbase]
          simp [hqh]
        · rw [getPlayer_mapPlayer_other _ _ _ _ hqp]
          have hbase : getPlayer { s with longestRoad := len } q = getPlayer s q := rfl
          rw [hbase]
          simp [hqp, hqh]
  · intro h1 h2
    simp only [updateLongestRoadWith]
    split_ifs <;> first | rfl | omega
  · intro hl h1 h2
    have hA : ¬ s.longestRoad < len := by omega
    simp only [updateLongestRoadWith, if_neg hA,
      if_pos (show s.longestRoadPlayer = some p ∧ len < s.longestRoad from ⟨hl, h1⟩),
      if_pos h2]
  · intro hl h1 h2
    have hA : ¬ s.longestRoad < len := by omega
    have h5 : ¬ len < 5 := by omega
    simp only [updateLongestRoadWith, if_neg hA,
      if_pos (show s.longestRoadPlayer = some p ∧ len < s.longestRoad from ⟨hl, h1⟩),
      if_neg h5]
  · intro h1
    have hA : ¬ s.longestRoad < len := by omega
    have hB : ¬ (s.longestRoadPlayer = some p ∧ len < s.longestRoad) :=
      fun hc => absurd hc.2 (by omega)
    simp only [updateLongestRoadWith, if_neg hA, if_neg hB]

/-- Closed instance of `c2_longest_road_award`: from the empty two-player
state, a recomputed length of 5 makes player 0 the award holder. -/
theorem c2_longest_road_award_witness :
    (updateLongestRoadWith 5 0 emptyOccSt).longestRoadPlayer = some 0 := by
  have h := c2_longest_road_award emptyOccSt 5 0 (by decide)
  exact (h.1 (by decide) (by decide)).2.1

/-- C6 (amended): for a free target vertex, `_place_settlement` fails with
the adjacency error and changes nothing whenever some directly-adjacent
vertex carries a settlement marker, for any player and for both initial and
normal placements; a vertex with a bare city marker and no settlement marker
does not trigger the error (in this code a city vertex always retains its
settlement marker, so every reachable citied vertex is still covered), and
an occupied target vertex reports its own occupancy error first. -/
theorem c6_adjacent_settlement_blocks (cfg : Cfg) (p v : Nat) (flag : Bool)
    (s : GameSt)
    (hv : v ∈ cfg.vertexIds)
    (hfree : aGet s.settlementAt v = none)
    (hadj : ∃ a ∈ cfg.adj v, (aGet s.settlementAt a).isSome) :
    placeSettlement cfg p v flag s =
      (s, some (Err.valueError "There is settlement on adjacent vertex")) := by
  have h1 : ¬ v ∉ cfg.vertexIds := by simp [hv]
  have hfind : ((cfg.adj v).find? (fun a => (aGet s.settlementAt a).isSome)).isSome := by
    rw [List.find?_isSome]
    obtain ⟨a, ha, hs⟩ := hadj
    exact ⟨a, ha, by simpa using hs⟩
  simp only [placeSettlement, if_neg h1, hfree, Option.isSome_none,
    Bool.false_eq_true, if_false, hfind, if_true]

/-- A state where vertex 1 holds player 1's settlement marker. -/
def c6StW : GameSt := { emptyOccSt with settlementAt := [(1, 1)] }

/-- Closed instance of `c6_adjacent_settlement_blocks`: vertex 1, adjacent to
the target vertex 0, holds player 1's settlement, so placement at 0 fails
with the adjacency error and the state is returned unchanged. -/
theorem c6_adjacent_settlement_blocks_witness :
    placeSettlement c6Cfg 0 0 true c6StW =
      (c6StW, some (Err.valueError "There is settlement on adjacent vertex")) :=
  c6_adjacent_settlement_blocks c6Cfg 0 0 true c6StW (by decide) (by decide)
    ⟨1, by decide, by decide⟩

/-- C4 (amended): a successful `_place_city` marks the vertex as a city,
appends it to the player's city list (occupying a city slot), deducts 2 wheat
and 3 ore, and adds 1 victory point — but it does NOT vacate the settlement:
the vertex stays in the player's settlement list (still counting against the
settlement maximum) and keeps its settlement marker, so the vertex holds a
live settlement slot and a city simultaneously. -/
theorem c4_city_keeps_settlement (cfg : Cfg) (p v : Nat) (s : GameSt) (wh o : Int)
    (hv : v ∈ cfg.vertexIds)
    (hset : aGet s.settlementAt v = some p)
    (hcity : aGet s.cityAt v = none)
    (hwh : rGet (getPlayer s p).resources "wheat" = some wh) (hwh2 : 2 ≤ wh)
    (ho : rGet (getPlayer s p).resources "ore" = some o) (ho2 : 3 ≤ o)
    (hcap : (getPlayer s p).cities.length < cfg.maxCities) :
    placeCity cfg p v s =
      ({ s with
           cityAt := aSet s.cityAt v p
           players := s.players.set p
             { getPlayer s p with
                 cities := (getPlayer s p).cities ++ [v]
                 resources := rSet (rSet (getPlayer s p).resources "wheat" (wh - 2)) "ore" (o - 3)
                 victoryPoints := (getPlayer s p).victoryPoints + 1 } }, none) := by
  have h1 : ¬ v ∉ cfg.vertexIds := by simp [hv]
  have h2 : ¬ aGet s.settlementAt v ≠ some p := by simp [hset]
  have h4 : ¬ wh < 2 := by omega
  have h5 : ¬ o < 3 := by omega
  have h6 : ¬ cfg.maxCities ≤ (getPlayer s p).cities.length := by omega
  simp only [placeCity, if_neg h1, if_neg h2, hcity, Option.isSome_none,
    Bool.false_eq_true, if_false, hwh, ho, if_neg h4, if_neg h5, if_neg h6,
    mapPlayer]
  have hbase : getPlayer { s with cityAt := aSet s.cityAt v p } p = getPlayer s p := rfl
  rw [hbase]

/-- Closed instance of `c4_city_keeps_settlement` at the concrete city
scenario. -/
theorem c4_city_keeps_settlement_witness :
    placeCity c4Cfg 0 3 c4St =
      ({ c4St with
           cityAt := aSet c4St.cityAt 3 0
           players := c4St.players.set 0
             { getPlayer c4St 0 with
                 cities := (getPlayer c4St 0).cities ++ [3]
                 resources := rSet (rSet (getPlayer c4St 0).resources "wheat" 0) "ore" 0
                 victoryPoints := (getPlayer c4St 0).victoryPoints + 1 } }, none) := by
  have h := c4_city_keeps_settlement c4Cfg 0 3 c4St 2 3 (by decide) (by decide)
    (by decide) (by decide) (by decide) (by decide) (by decide) (by decide)
  simpa using h


/-- A failing free road placement has not mutated anything: every check of
`_place_road` runs before its first mutation. -/
theorem placeRoad_initial_error (cfg : Cfg) (p : Nat) (e : Nat × Nat)
    (s s1 : GameSt) (err : Err) :
    placeRoad cfg p e true s = (s1, some err) → s1 = s := by
  intro h
  unfold placeRoad at h
  split at h
  · exact (congrArg Prod.fst h).symm
  · split at h
    · exact (congrArg Prod.fst h).symm
    · split at h
      · exact (congrArg Prod.fst h).symm
      · rw [if_pos rfl] at h
        unfold placeRoadCore at h
        split at h
        · exact (congrArg Prod.fst h).symm
        · exact Option.noConfusion (congrArg Prod.snd h)

/-- A successful free road placement records the edge for the player and
leaves every player's development cards untouched. -/
theorem placeRoad_initial_success (cfg : Cfg) (p : Nat) (e : Nat × Nat)
    (s s1 : GameSt) :
    placeRoad cfg p e true s = (s1, none) →
    aGet s1.roadAt e = some p ∧
      (∀ i, (getPlayer s1 i).devCards = (getPlayer s i).devCards) := by
  intro h
  unfold placeRoad at h
  split at h
  · exact Option.noConfusion (congrArg Prod.snd h)
  · split at h
    · exact Option.noConfusion (congrArg Prod.snd h)
    · split at h
      · exact Option.noConfusion (congrArg Prod.snd h)
      · rw [if_pos rfl] at h
        unfold placeRoadCore at h
        split at h
        · exact Option.noConfusion (congrArg Prod.snd h)
        · have h2 : (updateLongestRoad p (mapPlayer { s with roadAt := aSet s.roadAt e p } p
              (fun pl => { pl with roads := pl.roads ++ [e] })), (none : Option Err)) = (s1, none) := h
          have hs1 : s1 = updateLongestRoad p (mapPlayer { s with roadAt := aSet s.roadAt e p } p
              (fun pl => { pl with roads := pl.roads ++ [e] })) := (congrArg Prod.fst h2).symm
          subst hs1
          constructor
          · rw [show updateLongestRoad p (mapPlayer { s with roadAt := aSet s.roadAt e p } p
                (fun pl => { pl with roads := pl.roads ++ [e] })) =
                updateLongestRoadWith (calcLongestRoad (getPlayer (mapPlayer { s with roadAt := aSet s.roadAt e p } p
                  (fun pl => { pl with roads := pl.roads ++ [e] })) p).roads
                  (blockedFor (mapPlayer { s with roadAt := aSet s.roadAt e p } p
                    (fun pl => { pl with roads := pl.roads ++ [e] })) p)) p
                  (mapPlayer { s with roadAt := aSet s.roadAt e p } p
                    (fun pl => { pl with roads := pl.roads ++ [e] })) from rfl]
            rw [updateLongestRoadWith_roadAt, mapPlayer_roadAt]
            exact aGet_aSet_self _ _ _
          · intro i
            rw [show updateLongestRoad p (mapPlayer { s with roadAt := aSet s.roadAt e p } p
                (fun pl => { pl with roads := pl.roads ++ [e] })) =
                updateLongestRoadWith (calcLongestRoad (getPlayer (mapPlayer { s with roadAt := aSet s.roadAt e p } p
                  (fun pl => { pl with roads := pl.roads ++ [e] })) p).roads
                  (blockedFor (mapPlayer { s with roadAt := aSet s.roadAt e p } p
                    (fun pl => { pl with roads := pl.roads ++ [e] })) p)) p
                  (mapPlayer { s with roadAt := aSet s.roadAt e p } p
                    (fun pl => { pl with roads := pl.roads ++ [e] })) from rfl]
            rw [updateLongestRoadWith_devCards]
            rw [getPlayer_devCards_mapPlayer { s with roadAt := aSet s.roadAt e p } p i
              (fun pl => { pl with roads := pl.roads ++ [e] }) (fun _ => rfl)]
            rfl

/-- C3 (amended): operations are NOT uniformly atomic.  Each individual
`_place_road` is atomic, but the composite card plays are not:
(1) `_play_knight` moves the robber before its victim checks, so when the
victim holds zero total resources the call fails with the robber already at
the new coordinate and everything else (players, cards, resources)
unchanged; (2) `_play_road_building` places roads one at a time, so when the
first road placement succeeds and the second fails, the failure leaves the
first road on the board while the Road-Building card count stays
untouched. -/
theorem c3_failed_plays_keep_partial_mutations :
    (∀ (cfg : Cfg) (coord : Int × Int) (p q : Nat) (choose : List String → String)
       (s : GameSt),
      (getPlayer s p).devCards.knight ≠ 0 →
      q ≠ p →
      coord ≠ s.robber →
      sumRes (getPlayer s q).resources ≤ 0 →
      playKnight cfg coord p (some q) choose s =
        ({ s with robber := coord },
         some (Err.assertionError "Player to steal from does not have any resources"))) ∧
    (∀ (cfg : Cfg) (p : Nat) (e1 e2 : Nat × Nat) (s s1 s2 : GameSt) (err : Err),
      (getPlayer s p).devCards.roadBuilding ≠ 0 →
      placeRoad cfg p e1 true s = (s1, none) →
      placeRoad cfg p e2 true s1 = (s2, some err) →
      playRoadBuilding cfg p [e1, e2] s = (s2, some err) ∧ s2 = s1 ∧
        aGet s2.roadAt e1 = some p ∧
        (getPlayer s2 p).devCards.roadBuilding =
          (getPlayer s p).devCards.roadBuilding) := by
  constructor
  · intro cfg coord p q choose s hK hqp hcoord hsum
    have h2 : ¬ ((some q : Option Nat) = some p) := by simpa using hqp
    have hsum2 : sumRes (getPlayer { s with robber := coord } q).resources ≤ 0 := hsum
    simp only [playKnight, moveRobber, if_neg hK, if_neg h2, if_neg hcoord,
      if_pos hsum2]
  · intro cfg p e1 e2 s s1 s2 err hK h1 h2
    have hs2 : s2 = s1 := placeRoad_initial_error cfg p e2 s1 s2 err h2
    have hpost := placeRoad_initial_success cfg p e1 s s1 h1
    refine ⟨?_, hs2, ?_, ?_⟩
    · unfold playRoadBuilding
      rw [if_neg hK]
      simp only [List.isEmpty_cons, Bool.false_eq_true, if_false,
        List.foldl_cons, List.foldl_nil, h1, h2]
    · rw [hs2]
      exact hpost.1
    · rw [hs2, show (getPlayer s1 p).devCards = (getPlayer s p).devCards from hpost.2 p]

/-- Closed instance of `c3_failed_plays_keep_partial_mutations`: the failing
knight play against a resourceless victim has moved the robber. -/
theorem c3_failed_plays_keep_partial_mutations_witness :
    playKnight baseCfg (1, 1) 0 (some 1) anyChoose c3St =
      ({ c3St with robber := (1, 1) },
       some (Err.assertionError "Player to steal from does not have any resources")) :=
  c3_failed_plays_keep_partial_mutations.1 baseCfg (1, 1) 0 1 anyChoose c3St
    (by decide) (by decide) (by decide) (by decide)

/-! ## C7 — bank trade rate selection and accounting -/

/-- The rate loop picks 2 whenever a settlement sits on a 2:1 port for the
given resource, else 3 when one sits on a 3:1 "any" port, else the starting
rate. -/
theorem tradeRateLoop_eq (ports : String → List Nat) (giveT : String)
    (l : List Nat) (r : Nat) :
    tradeRateLoop ports giveT l r =
      if ∃ x ∈ l, x ∈ ports giveT then 2
      else if ∃ x ∈ l, x ∈ ports "any" then 3
      else r := by
  induction l generalizing r with
  | nil => simp [tradeRateLoop]
  | cons a rest ih =>
    by_cases h1 : a ∈ ports giveT
    · simp [tradeRateLoop, h1]
    · by_cases h3 : ∃ x ∈ rest, x ∈ ports giveT
      · simp [tradeRateLoop, h1, h3, ih]
      · by_cases h2 : a ∈ ports "any"
        · simp [tradeRateLoop, h1, h2, h3, ih]
        · by_cases h4 : ∃ x ∈ rest, x ∈ ports "any" <;>
            simp [tradeRateLoop, h1, h2, h3, h4, ih]

/-- The selected rate is always one of 2, 3, 4. -/
theorem tradeRate_mem (ports : String → List Nat) (giveT : String)
    (l : List Nat) : tradeRate ports giveT l ∈ [2, 3, 4] := by
  unfold tradeRate
  rw [tradeRateLoop_eq]
  split_ifs <;> simp

/-- C7: the applied bank-trade rate is the best available — 2 whenever the
player owns a settlement on a 2:1 port for the given-away resource (so a
player holding both a 3:1 "any" port and a 2:1 port trades at 2), else 3 with
a 3:1 "any" port, else 4 — and, for an otherwise valid call, the trade fails
with the resource error exactly when the player holds fewer than
`rate × amount_to_receive` of the given-away resource, while on success
exactly `rate × amount_to_receive` of it is deducted and `amount_to_receive`
of the received resource is added. -/
theorem c7_trade_rate_and_accounting (cfg : Cfg) (p : Nat) (recvT : String)
    (recvA : Int) (giveT : String) (giveA : Int) (s : GameSt) (g r0 : Int)
    (hp : p < s.players.length)
    (hrt : recvT ∈ RESOURCE_TYPES) (hgt : giveT ∈ RESOURCE_TYPES)
    (hra : 0 < recvA)
    (hne : recvT ≠ giveT)
    (hg : rGet (getPlayer s p).resources giveT = some g)
    (hr : rGet (getPlayer s p).resources recvT = some r0)
    (hga : giveA = (tradeRate cfg.ports giveT (getPlayer s p).settlements : Int)) :
    (tradeRate cfg.ports giveT (getPlayer s p).settlements =
       if ∃ x ∈ (getPlayer s p).settlements, x ∈ cfg.ports giveT then 2
       else if ∃ x ∈ (getPlayer s p).settlements, x ∈ cfg.ports "any" then 3
       else 4) ∧
    (g < recvA * (tradeRate cfg.ports giveT (getPlayer s p).settlements : Int) →
      tradeWithBank cfg p recvT recvA giveT giveA s =
        (s, some (Err.valueError "Player does not have enough resources for the trade"))) ∧
    (recvA * (tradeRate cfg.ports giveT (getPlayer s p).settlements : Int) ≤ g →
      (tradeWithBank cfg p recvT recvA giveT giveA s).2 = none ∧
      rGet (getPlayer (tradeWithBank cfg p recvT recvA giveT giveA s).1 p).resources giveT =
        some (g - recvA * (tradeRate cfg.ports giveT (getPlayer s p).settlements : Int)) ∧
      rGet (getPlayer (tradeWithBank cfg p recvT recvA giveT giveA s).1 p).resources recvT =
        some (r0 + recvA)) := by
  have hrate2 : 2 ≤ tradeRate cfg.ports giveT (getPlayer s p).settlements := by
    have := tradeRate_mem cfg.ports giveT (getPlayer s p).settlements
    simp at this
    rcases this with h | h | h <;> omega
  have h1 : ¬ recvT ∉ RESOURCE_TYPES := by simp [hrt]
  have h2 : ¬ giveT ∉ RESOURCE_TYPES := by simp [hgt]
  have h3 : ¬ recvA ≤ 0 := by omega
  have h4 : ¬ giveA ≤ 0 := by
    rw [hga]
    have : (2 : Int) ≤ (tradeRate cfg.ports giveT (getPlayer s p).settlements : Int) := by
      exact_mod_cast hrate2
    omega
  have h5 : ¬ tradeRate cfg.ports giveT (getPlayer s p).settlements ∉ [2, 3, 4] :=
    not_not_intro (tradeRate_mem cfg.ports giveT (getPlayer s p).settlements)
  have h6 : ¬ giveA ≠ (tradeRate cfg.ports giveT (getPlayer s p).settlements : Int) := by
    simp [hga]
  refine ⟨by rw [tradeRate, tradeRateLoop_eq], ?_, ?_⟩
  · intro hshort
    simp only [tradeWithBank, if_neg h1, if_neg h2, if_neg h3, if_neg h4,
      if_neg h5, if_neg h6, hg, if_pos hshort]
  · intro hcover
    have hnotshort : ¬ g < recvA * (tradeRate cfg.ports giveT (getPlayer s p).settlements : Int) := by
      omega
    have hkey : rGet (getPlayer (mapPlayer s p (fun pl =>
        { pl with resources := rSet pl.resources giveT (g - recvA * (tradeRate cfg.ports giveT (getPlayer s p).settlements : Int)) })) p).resources recvT =
        some r0 := by
      rw [getPlayer_mapPlayer_self _ _ _ hp]
      rw [rGet_rSet_other _ _ _ _ hne]
      exact hr
    simp only [tradeWithBank, if_neg h1, if_neg h2, if_neg h3, if_neg h4,
      if_neg h5, if_neg h6, hg, if_neg hnotshort, rAdd, hkey]
    refine ⟨by trivial, ?_, ?_⟩
    · rw [getPlayer_mapPlayer_self _ _ _ (by rw [mapPlayer_length]; exact hp)]
      rw [getPlayer_mapPlayer_self _ _ _ hp]
      rw [rGet_rSet_other _ _ _ _ (Ne.symm hne)]
      rw [rGet_rSet_self, hg]
      rfl
    · rw [getPlayer_mapPlayer_self _ _ _ (by rw [mapPlayer_length]; exact hp)]
      rw [getPlayer_mapPlayer_self _ _ _ hp]
      rw [rGet_rSet_self]
      rw [rGet_rSet_other _ _ _ _ hne, hr]
      rfl

/-- Port table for the witness: vertex 20 is the 2:1 wood port, vertex 10 the
3:1 "any" port. -/
def c7Cfg : Cfg :=
  { baseCfg with
      ports := fun k => if k = "wood" then [20] else if k = "any" then [10] else [] }

/-- Player 0 owns settlements on both ports and 4 wood. -/
def c7St : GameSt :=
  { emptyOccSt with
      players := [{ initPlayer with
                      settlements := [10, 20]
                      resources := [("wood", 4), ("brick", 0), ("sheep", 0),
                                    ("wheat", 0), ("ore", 0)] },
                  initPlayer] }

/-- Closed instance of `c7_trade_rate_and_accounting`: holding both a 3:1
"any" port and a 2:1 wood port, wood trades at 2:1 — 2 wood buy 1 brick. -/
theorem c7_trade_rate_and_accounting_witness :
    tradeRate c7Cfg.ports "wood" (getPlayer c7St 0).settlements = 2 ∧
    rGet (getPlayer (tradeWithBank c7Cfg 0 "brick" 1 "wood" 2 c7St).1 0).resources "wood" =
      some 2 ∧
    rGet (getPlayer (tradeWithBank c7Cfg 0 "brick" 1 "wood" 2 c7St).1 0).resources "brick" =
      some 1 := by
  have h := c7_trade_rate_and_accounting c7Cfg 0 "brick" 1 "wood" 2 c7St 4 0
    (by decide) (by decide) (by decide) (by decide) (by decide) (by decide)
    (by decide) (by decide)
  have h3 := h.2.2 (by decide)
  exact ⟨h.1.trans (by decide), h3.2.1.trans (by decide), h3.2.2.trans (by decide)⟩

/-! ## C8 — discard on seven -/

/-- The validation loop accepts exactly the discard lists whose every entry
names a held resource, within the held amount and non-negative. -/
theorem slashValidate_eq_none (res : Resources) (l : List (String × Int)) :
    slashValidate res l = none ↔
      ∀ kv ∈ l, ∃ cur, rGet res kv.1 = some cur ∧ kv.2 ≤ cur ∧ 0 ≤ kv.2 := by
  induction l with
  | nil => simp [slashValidate]
  | cons kv rest ih =>
    obtain ⟨k, amt⟩ := kv
    cases hg : rGet res k with
    | none =>
      simp only [slashValidate, hg]
      constructor
      · intro h
        exact Option.noConfusion h
      · intro h
        obtain ⟨cur, hcur, -, -⟩ := h (k, amt) (List.mem_cons_self _ _)
        rw [hg] at hcur
        exact Option.noConfusion hcur
    | some cur =>
      simp only [slashValidate, hg]
      by_cases hlt : cur < amt
      · rw [if_pos hlt]
        constructor
        · intro h
          exact Option.noConfusion h
        · intro h
          obtain ⟨cur2, hcur2, hle, -⟩ := h (k, amt) (List.mem_cons_self _ _)
          rw [hg] at hcur2
          injection hcur2 with he
          omega
      · rw [if_neg hlt]
        by_cases hneg : amt < 0
        · rw [if_pos hneg]
          constructor
          · intro h
            exact Option.noConfusion h
          · intro h
            obtain ⟨cur2, hcur2, -, hge⟩ := h (k, amt) (List.mem_cons_self _ _)
            omega
        · rw [if_neg hneg, ih]
          constructor
          · intro h kv2 hkv2
            rcases List.mem_cons.mp hkv2 with he | ht
            · rw [he]
              exact ⟨cur, hg, by omega, by omega⟩
            · exact h kv2 ht
          · intro h kv2 hkv2
            exact h kv2 (List.mem_cons.mpr (Or.inr hkv2))

/-- Applying a discard whose keys avoid `k` leaves `k` unchanged. -/
theorem slashApply_notmem (res : Resources) (l : List (String × Int)) (k : String)
    (hk : k ∉ l.map Prod.fst) : rGet (slashApply res l) k = rGet res k := by
  induction l generalizing res with
  | nil => rfl
  | cons kv rest ih =>
    obtain ⟨k0, a0⟩ := kv
    simp only [List.map_cons, List.mem_cons] at hk
    push_neg at hk
    rw [slashApply, ih _ hk.2, rGet_rSet_other _ _ _ _ hk.1]

/-- Applying a discard with distinct keys subtracts exactly the named amount
from each named resource. -/
theorem slashApply_mem (res : Resources) (l : List (String × Int)) (k : String)
    (amt : Int) (hnodup : (l.map Prod.fst).Nodup) (hmem : (k, amt) ∈ l) :
    rGet (slashApply res l) k = (rGet res k).map (fun c => c - amt) := by
  induction l generalizing res with
  | nil => simp at hmem
  | cons kv rest ih =>
    obtain ⟨k0, a0⟩ := kv
    simp only [List.map_cons, List.nodup_cons] at hnodup
    rcases List.mem_cons.mp hmem with hhead | htail
    · have hk : k0 = k := (Prod.mk.injEq _ _ _ _ ▸ hhead.symm).1
      have ha : a0 = amt := (Prod.mk.injEq _ _ _ _ ▸ hhead.symm).2
      subst hk
      subst ha
      rw [slashApply, slashApply_notmem _ _ _ hnodup.1]
      cases hg : rGet res k0 with
      | none =>
        rw [rGet_rSet_self, hg]
        rfl
      | some cur =>
        rw [rGet_rSet_self, hg]
        rfl
    · have hk0 : k0 ≠ k := by
        intro hc
        subst hc
        exact hnodup.1 (List.mem_map.mpr ⟨(k0, amt), htail, rfl⟩)
      rw [slashApply, ih _ hnodup.2 htail, rGet_rSet_other _ _ _ _ (Ne.symm hk0)]

/-- C8: `Player.slash` succeeds exactly when the player holds more than 7
total resources, the discard sums to exactly `floor(total/2)`, and every
entry names a held resource type with a non-negative amount not exceeding the
held amount; every failure leaves the inventory unchanged; a player with
exactly 7 total resources can never discard; and on success each named
resource decreases by exactly the named amount while unnamed resources stay
put. -/
theorem c8_slash_spec (res : Resources) (toSlash : List (String × Int))
    (hnodup : (toSlash.map Prod.fst).Nodup) :
    ((slash res toSlash).2 = none ↔
      (7 < sumRes res ∧
       (toSlash.map Prod.snd).sum = Int.fdiv (sumRes res) 2 ∧
       ∀ kv ∈ toSlash, ∃ cur, rGet res kv.1 = some cur ∧ kv.2 ≤ cur ∧ 0 ≤ kv.2)) ∧
    ((slash res toSlash).2.isSome → (slash res toSlash).1 = res) ∧
    (sumRes res = 7 → (slash res toSlash).2.isSome) ∧
    ((slash res toSlash).2 = none →
      ∀ k amt, (k, amt) ∈ toSlash →
        rGet (slash res toSlash).1 k = (rGet res k).map (fun c => c - amt)) ∧
    ((slash res toSlash).2 = none →
      ∀ k, k ∉ toSlash.map Prod.fst → rGet (slash res toSlash).1 k = rGet res k) := by
  by_cases h7 : sumRes res ≤ 7
  · have hs : slash res toSlash =
        (res, some (Err.assertionError "Cannot slash if player has 7 or fewer resources")) := by
      simp only [slash, if_pos h7]
    rw [hs]
    refine ⟨?_, fun _ => rfl, fun _ => rfl, ?_, ?_⟩
    · constructor
      · intro h
        exact Option.noConfusion h
      · rintro ⟨hlt, -, -⟩
        omega
    · intro h
      exact absurd h (by simp)
    · intro h
      exact absurd h (by simp)
  · by_cases heq : (toSlash.map Prod.snd).sum = Int.fdiv (sumRes res) 2
    · cases hv : slashValidate res toSlash with
      | some e =>
        have hs : slash res toSlash = (res, some e) := by
          simp only [slash, if_neg h7, if_neg (not_not_intro heq), hv]
        rw [hs]
        refine ⟨?_, fun _ => rfl, fun _ => rfl, ?_, ?_⟩
        · constructor
          · intro h
            exact Option.noConfusion h
          · rintro ⟨-, -, hall⟩
            rw [← slashValidate_eq_none res toSlash] at hall
            rw [hv] at hall
            exact Option.noConfusion hall
        · intro h
          exact absurd h (by simp)
        · intro h
          exact absurd h (by simp)
      | none =>
        have hs : slash res toSlash = (slashApply res toSlash, none) := by
          simp only [slash, if_neg h7, if_neg (not_not_intro heq), hv]
        rw [hs]
        refine ⟨?_, ?_, ?_, ?_, ?_⟩
        · exact ⟨fun _ => ⟨by omega, heq, (slashValidate_eq_none res toSlash).mp hv⟩,
            fun _ => rfl⟩
        · intro h
          simp at h
        · intro hc
          exact absurd hc (by omega)
        · intro _ k amt hm
          exact slashApply_mem res toSlash k amt hnodup hm
        · intro _ k hk
          exact slashApply_notmem res toSlash k hk
    · have hs : slash res toSlash =
          (res, some (Err.assertionError "Must discard exactly half of resources")) := by
        simp only [slash, if_neg h7, if_pos heq]
      rw [hs]
      refine ⟨?_, fun _ => rfl, fun _ => rfl, ?_, ?_⟩
      · constructor
        · intro h
          exact Option.noConfusion h
        · rintro ⟨-, hsum, -⟩
          exact absurd hsum heq
      · intro h
        exact absurd h (by simp)
      · intro h
        exact absurd h (by simp)

/-- A 9-card inventory. -/
def res9 : Resources :=
  [("wood", 3), ("brick", 2), ("sheep", 2), ("wheat", 2), ("ore", 0)]

/-- Closed instance of `c8_slash_spec`: with 9 total resources, discarding
2 wood + 2 brick (sum 4 = floor(9/2)) succeeds and wood drops from 3 to 1. -/
theorem c8_slash_spec_witness :
    (slash res9 [("wood", 2), ("brick", 2)]).2 = none ∧
    rGet (slash res9 [("wood", 2), ("brick", 2)]).1 "wood" = some 1 := by
  have h := c8_slash_spec res9 [("wood", 2), ("brick", 2)] (by decide)
  have hall : ∀ kv ∈ [(("wood" : String), (2 : Int)), ("brick", 2)],
      ∃ cur, rGet res9 kv.1 = some cur ∧ kv.2 ≤ cur ∧ 0 ≤ kv.2 := by
    intro kv hkv
    rcases List.mem_cons.mp hkv with h1 | h2
    · subst h1
      exact ⟨3, by decide, by decide, by decide⟩
    · rcases List.mem_cons.mp h2 with h3 | h4
      · subst h3
        exact ⟨2, by decide, by decide, by decide⟩
      · simp at h4
  have hok := h.1.mpr ⟨by decide, by decide, hall⟩
  refine ⟨hok, ?_⟩
  exact (h.2.2.2.1 hok "wood" 2 (by decide)).trans (by decide)

/-! ## C9 — resource distribution -/

/-- One grant pass over a tile's vertices adds one unit of the tile's
resource per owned vertex and touches nothing else. -/
theorem grantForVertices_spec (tileRes : String) (owned : List Nat) :
    ∀ (verts : List Nat) (res : Resources) (c : Int),
    rGet res tileRes = some c →
    (grantForVertices tileRes verts owned res).2 = none ∧
    rGet (grantForVertices tileRes verts owned res).1 tileRes =
      some (c + ((verts.filter (fun v => decide (v ∈ owned))).length : Int)) ∧
    (∀ k, k ≠ tileRes → rGet (grantForVertices tileRes verts owned res).1 k = rGet res k) := by
  intro verts
  induction verts with
  | nil =>
    intro res c hc
    exact ⟨rfl, by simpa using hc, fun k hk => rfl⟩
  | cons v rest ih =>
    intro res c hc
    by_cases hv : v ∈ owned
    · have hadd : rAdd res tileRes 1 = some (rSet res tileRes (c + 1)) := by
        rw [rAdd, hc]
      have hc2 : rGet (rSet res tileRes (c + 1)) tileRes = some (c + 1) := by
        rw [rGet_rSet_self, hc]
        rfl
      obtain ⟨hA, hB, hC⟩ := ih (rSet res tileRes (c + 1)) (c + 1) hc2
      have hred : grantForVertices tileRes (v :: rest) owned res =
          grantForVertices tileRes rest owned (rSet res tileRes (c + 1)) := by
        simp only [grantForVertices, if_pos hv, hadd]
      rw [hred]
      refine ⟨hA, ?_, ?_⟩
      · rw [hB]
        have hlen : (List.filter (fun v => decide (v ∈ owned)) (v :: rest)).length =
            (List.filter (fun v => decide (v ∈ owned)) rest).length + 1 := by
          simp [List.filter_cons, hv]
        rw [hlen]
        congr 1
        push_cast
        ring
      · intro k hk
        rw [hC k hk, rGet_rSet_other _ _ _ _ hk]
    · have hred : grantForVertices tileRes (v :: rest) owned res =
          grantForVertices tileRes rest owned res := by
        simp only [grantForVertices, if_neg hv]
      rw [hred]
      obtain ⟨hA, hB, hC⟩ := ih res c hc
      refine ⟨hA, ?_, hC⟩
      rw [hB]
      congr 2
      simp [List.filter_cons, hv]

/-- The per-player gain from one tile: one unit per settled tile vertex plus
one unit per citied tile vertex (`_distribute_resources` gives a city vertex
its second unit through the separate city loop; the vertex also still sits in
the settlement list, which yields the first). -/
def tileGain (t : Tile) (pl : PlayerSt) : Nat :=
  (t.vertices.filter (fun v => decide (v ∈ pl.settlements))).length +
    (t.vertices.filter (fun v => decide (v ∈ pl.cities))).length

/-- The player loop of one tile adds `tileGain` units of the tile's resource
to every listed player and changes nothing else. -/
theorem distributeTilePlayers_spec (t : Tile) :
    ∀ (idxs : List Nat) (s : GameSt),
    idxs.Nodup →
    (∀ j ∈ idxs, j < s.players.length) →
    (∀ j ∈ idxs, (rGet (getPlayer s j).resources t.resource).isSome) →
    (distributeTilePlayers t idxs s).2 = none ∧
    (distributeTilePlayers t idxs s).1.players.length = s.players.length ∧
    (distributeTilePlayers t idxs s).1.settlementAt = s.settlementAt ∧
    (distributeTilePlayers t idxs s).1.cityAt = s.cityAt ∧
    (distributeTilePlayers t idxs s).1.roadAt = s.roadAt ∧
    (distributeTilePlayers t idxs s).1.robber = s.robber ∧
    (∀ i, i ∉ idxs → getPlayer (distributeTilePlayers t idxs s).1 i = getPlayer s i) ∧
    (∀ i, i ∈ idxs →
       (getPlayer (distributeTilePlayers t idxs s).1 i).settlements = (getPlayer s i).settlements ∧
       (getPlayer (distributeTilePlayers t idxs s).1 i).cities = (getPlayer s i).cities ∧
       (getPlayer (distributeTilePlayers t idxs s).1 i).roads = (getPlayer s i).roads ∧
       (getPlayer (distributeTilePlayers t idxs s).1 i).victoryPoints = (getPlayer s i).victoryPoints ∧
       (getPlayer (distributeTilePlayers t idxs s).1 i).devCards = (getPlayer s i).devCards ∧
       rGet (getPlayer (distributeTilePlayers t idxs s).1 i).resources t.resource =
         (rGet (getPlayer s i).resources t.resource).map
           (fun c => c + (tileGain t (getPlayer s i) : Int)) ∧
       (∀ k, k ≠ t.resource →
         rGet (getPlayer (distributeTilePlayers t idxs s).1 i).resources k =
           rGet (getPlayer s i).resources k)) := by
  intro idxs
  induction idxs with
  | nil =>
    intro s _ _ _
    refine ⟨rfl, rfl, rfl, rfl, rfl, rfl, fun i _ => rfl, fun i hi => absurd hi (by simp)⟩
  | cons i0 rest ih =>
    intro s hnodup hlt hkeys
    obtain ⟨hi0notin, hnodup2⟩ := List.nodup_cons.mp hnodup
    have hi0lt : i0 < s.players.length := hlt i0 (List.mem_cons_self _ _)
    obtain ⟨c, hc⟩ := Option.isSome_iff_exists.mp (hkeys i0 (List.mem_cons_self _ _))
    have g1 := grantForVertices_spec t.resource (getPlayer s i0).settlements
      t.vertices (getPlayer s i0).resources c hc
    rcases hg1 : grantForVertices t.resource t.vertices (getPlayer s i0).settlements
        (getPlayer s i0).resources with ⟨r1, e1⟩
    rw [hg1] at g1
    obtain ⟨he1, hr1get, hr1other⟩ := g1
    simp only at he1
    subst he1
    have g2 := grantForVertices_spec t.resource (getPlayer s i0).cities
      t.vertices r1 _ hr1get
    rcases hg2 : grantForVertices t.resource t.vertices (getPlayer s i0).cities r1
      with ⟨r2, e2⟩
    rw [hg2] at g2
    obtain ⟨he2, hr2get, hr2other⟩ := g2
    simp only at he2
    subst he2
    have hstep : distributeTilePlayers t (i0 :: rest) s =
        distributeTilePlayers t rest
          (mapPlayer s i0 (fun q => { q with resources := r2 })) := by
      simp only [distributeTilePlayers, hg1, hg2]
    set s2 := mapPlayer s i0 (fun q => { q with resources := r2 }) with hs2
    have hlen2 : s2.players.length = s.players.length := mapPlayer_length _ _ _
    have hother : ∀ j, j ≠ i0 → getPlayer s2 j = getPlayer s j := by
      intro j hj
      exact getPlayer_mapPlayer_other _ _ _ _ hj
    have hself : getPlayer s2 i0 = { getPlayer s i0 with resources := r2 } :=
      getPlayer_mapPlayer_self _ _ _ hi0lt
    have hrest := ih s2 hnodup2
      (by
        intro j hj
        rw [hlen2]
        exact hlt j (List.mem_cons_of_mem _ hj))
      (by
        intro j hj
        have hjne : j ≠ i0 := fun hc2 => hi0notin (hc2 ▸ hj)
        rw [hother j hjne]
        exact hkeys j (List.mem_cons_of_mem _ hj))
    obtain ⟨hP0, hP1, hP2, hP3, hP4, hP5, hPout, hPin⟩ := hrest
    rw [hstep]
    refine ⟨hP0, hP1.trans hlen2, hP2, hP3, hP4, hP5, ?_, ?_⟩
    · intro i hi
      have hine : i ≠ i0 := fun hc2 => hi (hc2 ▸ List.mem_cons_self _ _)
      have hinotin : i ∉ rest := fun hc2 => hi (List.mem_cons_of_mem _ hc2)
      rw [hPout i hinotin, hother i hine]
    · intro i hi
      rcases List.mem_cons.mp hi with hieq | himem
      · subst hieq
        rw [hPout i hi0notin, hself]
        refine ⟨rfl, rfl, rfl, rfl, rfl, ?_, ?_⟩
        · show rGet r2 t.resource = _
          rw [hr2get, hc]
          show _ = some (c + (tileGain t (getPlayer s i) : Int))
          congr 1
          unfold tileGain
          push_cast
          ring
        · intro k hk
          show rGet r2 k = _
          rw [hr2other k hk, hr1other k hk]
      · have hine : i ≠ i0 := fun hc2 => hi0notin (hc2 ▸ himem)
        have hfacts := hPin i himem
        rw [hother i hine] at hfacts
        exact hfacts

/-- The total gain of resource `k` for a player over a tile list, skipping
the robber tile: `tileGain` summed over the matching tiles. -/
def tilesGain (tiles : List Tile) (robber : Int × Int) (k : String)
    (pl : PlayerSt) : Int :=
  ((tiles.filter (fun t => t.cord ≠ robber ∧ t.resource = k)).map
    (fun t => (tileGain t pl : Int))).sum

theorem tileGain_congr (t : Tile) (pl1 pl2 : PlayerSt)
    (hs : pl1.settlements = pl2.settlements) (hc : pl1.cities = pl2.cities) :
    tileGain t pl1 = tileGain t pl2 := by
  unfold tileGain
  rw [hs, hc]

/-- The tile loop of `_distribute_resources` succeeds when every listed
tile's resource is a key of every player's inventory, leaves the robber and
every player's buildings unchanged, and adds exactly `tilesGain` of each
resource to each player. -/
theorem distributeTiles_spec :
    ∀ (tiles : List Tile) (s : GameSt),
    (∀ t ∈ tiles, ∀ j, j < s.players.length →
      (rGet (getPlayer s j).resources t.resource).isSome) →
    (distributeTiles tiles s).2 = none ∧
    (distributeTiles tiles s).1.players.length = s.players.length ∧
    (distributeTiles tiles s).1.robber = s.robber ∧
    (∀ i, i < s.players.length →
      (getPlayer (distributeTiles tiles s).1 i).settlements = (getPlayer s i).settlements ∧
      (getPlayer (distributeTiles tiles s).1 i).cities = (getPlayer s i).cities ∧
      (∀ k, rGet (getPlayer (distributeTiles tiles s).1 i).resources k =
        (rGet (getPlayer s i).resources k).map
          (fun c => c + tilesGain tiles s.robber k (getPlayer s i)))) := by
  intro tiles
  induction tiles with
  | nil =>
    intro s _
    refine ⟨rfl, rfl, rfl, ?_⟩
    intro i _
    refine ⟨rfl, rfl, ?_⟩
    intro k
    show rGet (getPlayer s i).resources k =
      (rGet (getPlayer s i).resources k).map (fun c => c + tilesGain [] s.robber k (getPlayer s i))
    cases rGet (getPlayer s i).resources k <;> simp [tilesGain]
  | cons t rest ih =>
    intro s hkeys
    by_cases hrob : t.cord = s.robber
    · have hstep : distributeTiles (t :: rest) s = distributeTiles rest s := by
        simp only [distributeTiles, if_pos hrob]
      obtain ⟨hA, hB, hC, hD⟩ := ih s (fun t2 ht2 => hkeys t2 (List.mem_cons_of_mem _ ht2))
      rw [hstep]
      refine ⟨hA, hB, hC, ?_⟩
      intro i hilen
      obtain ⟨hs1, hs2, hs3⟩ := hD i hilen
      refine ⟨hs1, hs2, ?_⟩
      intro k
      rw [hs3 k]
      have hfilter : List.filter (fun t2 => t2.cord ≠ s.robber ∧ t2.resource = k) (t :: rest) =
          List.filter (fun t2 => t2.cord ≠ s.robber ∧ t2.resource = k) rest := by
        rw [List.filter_cons]
        simp [hrob]
      unfold tilesGain
      rw [hfilter]
    · have htile := distributeTilePlayers_spec t (List.range s.players.length) s
        (List.nodup_range _)
        (fun j hj => List.mem_range.mp hj)
        (fun j hj => hkeys t (List.mem_cons_self _ _) j (List.mem_range.mp hj))
      rcases hg : distributeTilePlayers t (List.range s.players.length) s with ⟨s1, e1⟩
      rw [hg] at htile
      obtain ⟨he1, hlen1, hsA, hsB, hsC, hrob1, hout1, hin1⟩ := htile
      simp only at he1
      subst he1
      have hstep : distributeTiles (t :: rest) s = distributeTiles rest s1 := by
        simp only [distributeTiles, if_neg hrob, hg]
      have hkeys1 : ∀ t2 ∈ rest, ∀ j, j < s1.players.length →
          (rGet (getPlayer s1 j).resources t2.resource).isSome := by
        intro t2 ht2 j hj
        rw [hlen1] at hj
        obtain ⟨-, -, -, -, -, hres, hothers⟩ := hin1 j (List.mem_range.mpr hj)
        by_cases hk : t2.resource = t.resource
        · rw [hk, hres]
          have := hkeys t (List.mem_cons_self _ _) j hj
          obtain ⟨c, hc⟩ := Option.isSome_iff_exists.mp this
          rw [hc]
          rfl
        · rw [hothers t2.resource hk]
          exact hkeys t2 (List.mem_cons_of_mem _ ht2) j hj
      obtain ⟨hA, hB, hC, hD⟩ := ih s1 hkeys1
      rw [hstep]
      refine ⟨hA, by rw [hB, hlen1], by rw [hC, hrob1], ?_⟩
      intro i hilen
      have hilen1 : i < s1.players.length := by rw [hlen1]; exact hilen
      obtain ⟨hq1, hq2, hq3, hq4, hq5, hq6, hq7⟩ := hin1 i (List.mem_range.mpr hilen)
      obtain ⟨hr1, hr2, hr3⟩ := hD i hilen1
      have hgain : ∀ t2 : Tile, tileGain t2 (getPlayer s1 i) = tileGain t2 (getPlayer s i) :=
        fun t2 => tileGain_congr t2 _ _ hq1 hq2
      refine ⟨hr1.trans hq1, hr2.trans hq2, ?_⟩
      intro k
      rw [hr3 k]
      have hsum : tilesGain rest s1.robber k (getPlayer s1 i) =
          tilesGain rest s.robber k (getPlayer s i) := by
        unfold tilesGain
        rw [hrob1]
        congr 1
        exact List.map_congr_left (fun t2 _ => by rw [hgain t2])
      rw [hsum]
      have hfilter : List.filter (fun t2 => t2.cord ≠ s.robber ∧ t2.resource = k) (t :: rest) =
          if t.resource = k then
            t :: List.filter (fun t2 => t2.cord ≠ s.robber ∧ t2.resource = k) rest
          else List.filter (fun t2 => t2.cord ≠ s.robber ∧ t2.resource = k) rest := by
        rw [List.filter_cons]
        by_cases hk : t.resource = k <;> simp [hrob, hk]
      by_cases hk : k = t.resource
      · rw [← hk] at hq6
        rw [hq6]
        cases hcv : rGet (getPlayer s i).resources k with
        | none => rfl
        | some c =>
          show some _ = some _
          congr 1
          unfold tilesGain
          rw [hfilter, if_pos hk.symm]
          rw [List.map_cons, List.sum_cons]
          ring
      · rw [hq7 k hk]
        cases hcv : rGet (getPlayer s i).resources k with
        | none => rfl
        | some c =>
          show some _ = some _
          congr 1
          unfold tilesGain
          rw [hfilter, if_neg (fun hc2 => hk hc2.symm)]

/-- C9: for a dice roll `n`, `_distribute_resources` succeeds (whenever every
relevant tile's resource is a key of every player's inventory), leaves the
robber and all buildings unchanged, and grants each player, for every tile
bearing `n` whose coordinate differs from the robber's, exactly 1 unit of the
tile's resource per settled tile vertex plus 1 more per citied tile vertex —
so a player with one settlement on the tile gains exactly 1, a player with a
city there gains exactly 2 (the city vertex also remains in the settlement
list under this code's bookkeeping), and a robber-occupied tile grants
nothing. -/
theorem c9_distribute_resources (cfg : Cfg) (n : Nat) (s : GameSt)
    (hkeys : ∀ t ∈ cfg.tiles.filter (fun t => t.number = some n), ∀ j,
      j < s.players.length → (rGet (getPlayer s j).resources t.resource).isSome) :
    (distributeResources cfg n s).2 = none ∧
    (distributeResources cfg n s).1.robber = s.robber ∧
    (∀ i, i < s.players.length →
      (getPlayer (distributeResources cfg n s).1 i).settlements = (getPlayer s i).settlements ∧
      (getPlayer (distributeResources cfg n s).1 i).cities = (getPlayer s i).cities ∧
      ∀ k, rGet (getPlayer (distributeResources cfg n s).1 i).resources k =
        (rGet (getPlayer s i).resources k).map
          (fun c => c + tilesGain (cfg.tiles.filter (fun t => t.number = some n))
            s.robber k (getPlayer s i))) := by
  have h := distributeTiles_spec (cfg.tiles.filter (fun t => t.number = some n)) s hkeys
  exact ⟨h.1, h.2.2.1, fun i hi => h.2.2.2 i hi⟩

/-- A single wood tile bearing number 8 with vertices 0, 1, 2. -/
def c9Cfg : Cfg :=
  { baseCfg with
      tiles := [{ resource := "wood", cord := (0, 0), number := some 8,
                  vertices := [0, 1, 2] }] }

/-- Player 0 has a settlement on vertex 0; player 1 a city on vertex 1 (the
vertex stays in the settlement list, as `_place_city` leaves it); the robber
is elsewhere. -/
def c9St : GameSt :=
  { emptyOccSt with
      robber := (5, 5)
      players := [{ initPlayer with settlements := [0] },
                  { initPlayer with settlements := [1], cities := [1] }] }

/-- Closed instance of `c9_distribute_resources`: rolling 8 gives the
settlement player 1 wood and the city player 2 wood. -/
theorem c9_distribute_resources_witness :
    (distributeResources c9Cfg 8 c9St).2 = none ∧
    rGet (getPlayer (distributeResources c9Cfg 8 c9St).1 0).resources "wood" = some 1 ∧
    rGet (getPlayer (distributeResources c9Cfg 8 c9St).1 1).resources "wood" = some 2 := by
  have h := c9_distribute_resources c9Cfg 8 c9St (by decide)
  exact ⟨h.1, ((h.2.2 0 (by decide)).2.2 "wood").trans (by decide),
    ((h.2.2 1 (by decide)).2.2 "wood").trans (by decide)⟩

/-! ## C1 upgrade: exact characterization of the longest-road search -/

/-- The set of paths the source DFS actually explores, as a flat predicate:
a non-empty vertex sequence stepping along the player's road adjacency, using
no edge twice, repeating no vertex before its final step (the last vertex may
close onto an earlier one), with every internal vertex free of opponent
settlements (the first and last vertex may be opponent-occupied). -/
def nearSimplePath (roads : List (Nat × Nat)) (blocked : Nat → Bool)
    (vs : List Nat) : Prop :=
  vs ≠ [] ∧
  List.Chain' (fun a b => b ∈ adjOf roads a) vs ∧
  (seqEdges vs).Nodup ∧
  vs.dropLast.Nodup ∧
  (∀ v ∈ vs.dropLast.tail, blocked v = false)

/-- The continuation paths available to the DFS from `cur` with edges
`vE` used and vertices `vV` visited: one step to an adjacent vertex over an
unused edge, then either stop or, when the new vertex passes the DFS entry
check, continue recursively. -/
def extOk (adj : Nat → List Nat) (blocked : Nat → Bool) (start : Nat) :
    Nat → List (Nat × Nat) → List Nat → List Nat → Prop
  | _, _, _, [] => True
  | cur, vE, vV, w :: rest =>
    w ∈ adj cur ∧ sortPair cur w ∉ vE ∧
      (rest = [] ∨
        (¬ (w ∈ cur :: vV ∨ (blocked w = true ∧ w ≠ start)) ∧
         extOk adj blocked start w (sortPair cur w :: vE) (cur :: vV) rest))

theorem sortPair_comm (a b : Nat) : sortPair a b = sortPair b a := by
  unfold sortPair
  split_ifs with h1 h2 h2
  · exact Prod.ext (by omega) (by omega)
  · rfl
  · rfl
  · omega

theorem seqEdges_length : ∀ (vs : List Nat), (seqEdges vs).length = vs.length - 1
  | [] => rfl
  | [_] => rfl
  | a :: b :: l => by
    show (sortPair a b :: seqEdges (b :: l)).length = (b :: l).length
    rw [List.length_cons, seqEdges_length (b :: l)]
    simp

theorem mem_adjOf_aux (v : Nat) :
    ∀ (l : List (Nat × Nat)) (acc : List Nat) (b : Nat),
    b ∈ l.foldl (fun acc e =>
      let acc1 := if e.1 = v then acc ++ [e.2] else acc
      if e.2 = v then acc1 ++ [e.1] else acc1) acc ↔
      b ∈ acc ∨ ∃ e ∈ l, (e.1 = v ∧ e.2 = b) ∨ (e.2 = v ∧ e.1 = b) := by
  intro l
  induction l with
  | nil => simp
  | cons e rest ih =>
    intro acc b
    rw [List.foldl_cons, ih]
    constructor
    · rintro (hmem | he)
      · by_cases h1 : e.1 = v <;> by_cases h2 : e.2 = v <;>
          simp only [h1, h2, if_true, if_false, List.mem_append,
            List.mem_singleton] at hmem <;>
          first
            | (rcases hmem with (hmem | hb) | hb
               · exact Or.inl hmem
               · exact Or.inr ⟨e, List.mem_cons_self _ _, by omega⟩
               · exact Or.inr ⟨e, List.mem_cons_self _ _, by omega⟩)
            | (rcases hmem with hmem | hb
               · exact Or.inl hmem
               · exact Or.inr ⟨e, List.mem_cons_self _ _, by omega⟩)
            | exact Or.inl hmem
      · obtain ⟨e2, he2, hcase⟩ := he
        exact Or.inr ⟨e2, List.mem_cons_of_mem _ he2, hcase⟩
    · rintro (hmem | ⟨e2, he2, hcase⟩)
      · left
        by_cases h1 : e.1 = v <;> by_cases h2 : e.2 = v <;>
          simp [h1, h2, hmem]
      · rcases List.mem_cons.mp he2 with heq | htail
        · subst heq
          left
          rcases hcase with ⟨hh1, hh2⟩ | ⟨hh1, hh2⟩ <;>
            by_cases hx : e2.1 = v <;> by_cases hy : e2.2 = v <;>
            simp_all
        · exact Or.inr ⟨e2, htail, hcase⟩

theorem mem_adjOf (roads : List (Nat × Nat)) (a b : Nat) :
    b ∈ adjOf roads a ↔
      ∃ e ∈ roads, (e.1 = a ∧ e.2 = b) ∨ (e.2 = a ∧ e.1 = b) := by
  rw [adjOf, mem_adjOf_aux]
  simp

theorem mem_flatten_aux :
    ∀ (l : List (Nat × Nat)) (acc : List Nat) (x : Nat),
    x ∈ l.foldl (fun acc e => acc ++ [e.1, e.2]) acc ↔
      x ∈ acc ∨ ∃ e ∈ l, e.1 = x ∨ e.2 = x := by
  intro l
  induction l with
  | nil => simp
  | cons e rest ih =>
    intro acc x
    rw [List.foldl_cons, ih]
    constructor
    · rintro (hmem | he)
      · rcases List.mem_append.mp hmem with h1 | h2
        · exact Or.inl h1
        · rcases List.mem_cons.mp h2 with h3 | h4
          · exact Or.inr ⟨e, List.mem_cons_self _ _, Or.inl h3.symm⟩
          · have hx2 : x = e.2 := by simpa using h4
            exact Or.inr ⟨e, List.mem_cons_self _ _, Or.inr hx2.symm⟩
      · obtain ⟨e2, he2, hc⟩ := he
        exact Or.inr ⟨e2, List.mem_cons_of_mem _ he2, hc⟩
    · rintro (hmem | ⟨e2, he2, hc⟩)
      · exact Or.inl (List.mem_append.mpr (Or.inl hmem))
      · rcases List.mem_cons.mp he2 with heq | htail
        · subst heq
          exact Or.inl (List.mem_append.mpr (Or.inr (by rcases hc with h | h <;> simp [h.symm])))
        · exact Or.inr ⟨e2, htail, hc⟩

theorem mem_dedup_aux :
    ∀ (l : List Nat) (acc : List Nat) (x : Nat),
    x ∈ l.foldl (fun acc v => if v ∈ acc then acc else acc ++ [v]) acc ↔
      x ∈ acc ∨ x ∈ l := by
  intro l
  induction l with
  | nil => simp
  | cons y rest ih =>
    intro acc x
    rw [List.foldl_cons, ih]
    by_cases hy : y ∈ acc
    · rw [if_pos hy]
      constructor
      · rintro (h | h)
        · exact Or.inl h
        · exact Or.inr (List.mem_cons_of_mem _ h)
      · rintro (h | h)
        · exact Or.inl h
        · rcases List.mem_cons.mp h with he | ht
          · exact Or.inl (he ▸ hy)
          · exact Or.inr ht
    · rw [if_neg hy]
      constructor
      · rintro (h | h)
        · rcases List.mem_append.mp h with h1 | h2
          · exact Or.inl h1
          · exact Or.inr (List.mem_cons.mpr (Or.inl (by simpa using h2)))
        · exact Or.inr (List.mem_cons_of_mem _ h)
      · rintro (h | h)
        · exact Or.inl (List.mem_append.mpr (Or.inl h))
        · rcases List.mem_cons.mp h with he | ht
          · exact Or.inl (List.mem_append.mpr (Or.inr (by simp [he])))
          · exact Or.inr ht

theorem mem_adjKeys (roads : List (Nat × Nat)) (x : Nat) :
    x ∈ adjKeys roads ↔ ∃ e ∈ roads, e.1 = x ∨ e.2 = x := by
  rw [adjKeys, mem_dedup_aux, mem_flatten_aux]
  simp

theorem maxFold_ge (g : Nat → Nat) :
    ∀ (l : List Nat) (a : Nat),
    a ≤ l.foldl (fun m y => max m (g y)) a ∧
      ∀ x ∈ l, g x ≤ l.foldl (fun m y => max m (g y)) a := by
  intro l
  induction l with
  | nil => intro a; exact ⟨le_refl _, by simp⟩
  | cons y rest ih =>
    intro a
    rw [List.foldl_cons]
    refine ⟨le_trans (le_max_left _ _) (ih (max a (g y))).1, ?_⟩
    intro x hx
    rcases List.mem_cons.mp hx with he | ht
    · rw [he]
      exact le_trans (le_max_right _ _) (ih (max a (g y))).1
    · exact (ih (max a (g y))).2 x ht

theorem maxFold_attained (g : Nat → Nat) :
    ∀ (l : List Nat) (a : Nat),
    l.foldl (fun m y => max m (g y)) a = a ∨
      ∃ x ∈ l, l.foldl (fun m y => max m (g y)) a = g x := by
  intro l
  induction l with
  | nil => intro a; exact Or.inl rfl
  | cons y rest ih =>
    intro a
    rw [List.foldl_cons]
    rcases ih (max a (g y)) with h | ⟨x, hx, hr⟩
    · rcases max_choice a (g y) with hm | hm
      · exact Or.inl (h.trans hm)
      · exact Or.inr ⟨y, List.mem_cons_self _ _, h.trans hm⟩
    · exact Or.inr ⟨x, List.mem_cons_of_mem _ hx, hr⟩

theorem condFold_ge (c : Nat → Prop) [DecidablePred c] (g : Nat → Nat) :
    ∀ (l : List Nat) (a : Nat),
    a ≤ l.foldl (fun m y => if c y then m else max m (g y)) a ∧
      ∀ x ∈ l, ¬ c x → g x ≤ l.foldl (fun m y => if c y then m else max m (g y)) a := by
  intro l
  induction l with
  | nil => intro a; exact ⟨le_refl _, by simp⟩
  | cons y rest ih =>
    intro a
    rw [List.foldl_cons]
    by_cases hc : c y
    · rw [if_pos hc]
      refine ⟨(ih a).1, ?_⟩
      intro x hx hcx
      rcases List.mem_cons.mp hx with he | ht
      · exact absurd (he ▸ hcx) (by simp [hc])
      · exact (ih a).2 x ht hcx
    · rw [if_neg hc]
      refine ⟨le_trans (le_max_left _ _) (ih (max a (g y))).1, ?_⟩
      intro x hx hcx
      rcases List.mem_cons.mp hx with he | ht
      · rw [he]
        exact le_trans (le_max_right _ _) (ih (max a (g y))).1
      · exact (ih (max a (g y))).2 x ht hcx

theorem condFold_attained (c : Nat → Prop) [DecidablePred c] (g : Nat → Nat) :
    ∀ (l : List Nat) (a : Nat),
    l.foldl (fun m y => if c y then m else max m (g y)) a = a ∨
      ∃ x ∈ l, ¬ c x ∧ l.foldl (fun m y => if c y then m else max m (g y)) a = g x := by
  intro l
  induction l with
  | nil => intro a; exact Or.inl rfl
  | cons y rest ih =>
    intro a
    rw [List.foldl_cons]
    by_cases hc : c y
    · rw [if_pos hc]
      rcases ih a with h | ⟨x, hx, hcx, hr⟩
      · exact Or.inl h
      · exact Or.inr ⟨x, List.mem_cons_of_mem _ hx, hcx, hr⟩
    · rw [if_neg hc]
      rcases ih (max a (g y)) with h | ⟨x, hx, hcx, hr⟩
      · rcases max_choice a (g y) with hm | hm
        · exact Or.inl (h.trans hm)
        · exact Or.inr ⟨y, List.mem_cons_self _ _, hc, h.trans hm⟩
      · exact Or.inr ⟨x, List.mem_cons_of_mem _ hx, hcx, hr⟩

theorem dfsLR_succ (adj : Nat → List Nat) (blocked : Nat → Bool) (start : Nat)
    (f cur : Nat) (vE : List (Nat × Nat)) (vV : List Nat)
    (hcur : ¬ (cur ∈ vV ∨ (blocked cur = true ∧ cur ≠ start))) :
    dfsLR adj blocked start (f + 1) cur vE vV =
      (adj cur).foldl (fun best nb =>
        if sortPair cur nb ∈ vE then best
        else max best (1 + dfsLR adj blocked start f nb (sortPair cur nb :: vE)
          (cur :: vV))) 0 := by
  rw [dfsLR, if_neg hcur]

theorem dfsLR_zero_of_fail (adj : Nat → List Nat) (blocked : Nat → Bool)
    (start fuel cur : Nat) (vE : List (Nat × Nat)) (vV : List Nat)
    (hcur : cur ∈ vV ∨ (blocked cur = true ∧ cur ≠ start)) :
    dfsLR adj blocked start fuel cur vE vV = 0 := by
  cases fuel with
  | zero => rfl
  | succ f => rw [dfsLR, if_pos hcur]

theorem dfsLR_pos_check (adj : Nat → List Nat) (blocked : Nat → Bool)
    (start fuel cur : Nat) (vE : List (Nat × Nat)) (vV : List Nat)
    (h : dfsLR adj blocked start fuel cur vE vV ≠ 0) :
    ¬ (cur ∈ vV ∨ (blocked cur = true ∧ cur ≠ start)) := by
  intro hc
  exact h (dfsLR_zero_of_fail adj blocked start fuel cur vE vV hc)

/-- Completeness of the DFS: every admissible continuation path is no longer
than the DFS value, given enough fuel. -/
theorem flat_le_dfsLR (adj : Nat → List Nat) (blocked : Nat → Bool) (start : Nat) :
    ∀ (ws : List Nat) (cur : Nat) (vE : List (Nat × Nat)) (vV : List Nat) (fuel : Nat),
    ws.length < fuel →
    ¬ (cur ∈ vV ∨ (blocked cur = true ∧ cur ≠ start)) →
    List.Chain' (fun a b => b ∈ adj a) (cur :: ws) →
    (seqEdges (cur :: ws)).Nodup →
    (∀ e ∈ seqEdges (cur :: ws), e ∉ vE) →
    (cur :: ws).dropLast.Nodup →
    (∀ v ∈ (cur :: ws).dropLast, v ∉ vV) →
    (∀ v ∈ (cur :: ws).dropLast.tail, ¬ (blocked v = true ∧ v ≠ start)) →
    ws.length ≤ dfsLR adj blocked start fuel cur vE vV := by
  intro ws
  induction ws with
  | nil =>
    intro cur vE vV fuel _ _ _ _ _ _ _ _
    exact Nat.zero_le _
  | cons w rest ih =>
    intro cur vE vV fuel hfuel hcur hchain hnodE hnotE hnodV hnotV hbl
    cases fuel with
    | zero => omega
    | succ f =>
      rw [dfsLR_succ adj blocked start f cur vE vV hcur]
      obtain ⟨hcw, hchain2⟩ := List.chain'_cons.mp hchain
      have hseq : seqEdges (cur :: w :: rest) = sortPair cur w :: seqEdges (w :: rest) := rfl
      have hetE : sortPair cur w ∉ vE := hnotE _ (by rw [hseq]; exact List.mem_cons_self _ _)
      have hge := (condFold_ge (fun nb => sortPair cur nb ∈ vE)
        (fun nb => 1 + dfsLR adj blocked start f nb (sortPair cur nb :: vE) (cur :: vV))
        (adj cur) 0).2 w hcw hetE
      cases rest with
      | nil =>
        calc (w :: ([] : List Nat)).length = 1 := rfl
        _ ≤ 1 + dfsLR adj blocked start f w (sortPair cur w :: vE) (cur :: vV) := by omega
        _ ≤ _ := hge
      | cons w2 rest2 =>
        have hdl : (cur :: w :: w2 :: rest2).dropLast =
            cur :: (w :: w2 :: rest2).dropLast := rfl
        have hdl2 : (w :: w2 :: rest2).dropLast = w :: (w2 :: rest2).dropLast := rfl
        have hcur2 := List.nodup_cons.mp (hdl ▸ hnodV)
        have hwmem : w ∈ (w :: w2 :: rest2).dropLast := by
          rw [hdl2]
          exact List.mem_cons_self _ _
        have hwcheck : ¬ (w ∈ cur :: vV ∨ (blocked w = true ∧ w ≠ start)) := by
          rintro (hmem | hblk)
          · rcases List.mem_cons.mp hmem with he | ht
            · exact hcur2.1 (he ▸ hwmem)
            · exact hnotV w (hdl ▸ List.mem_cons_of_mem _ hwmem) ht
          · exact hbl w (by rw [hdl]; exact hwmem) hblk
        have hseqnod := List.nodup_cons.mp (hseq ▸ hnodE)
        have hih := ih w (sortPair cur w :: vE) (cur :: vV) f
          (by simp only [List.length_cons] at hfuel ⊢; omega)
          hwcheck
          hchain2
          hseqnod.2
          (by
            intro e he hmem
            rcases List.mem_cons.mp hmem with he2 | ht
            · exact hseqnod.1 (he2 ▸ he)
            · exact hnotE e (by rw [hseq]; exact List.mem_cons_of_mem _ he) ht)
          hcur2.2
          (by
            intro v hv hmem
            rcases List.mem_cons.mp hmem with he2 | ht
            · exact hcur2.1 (he2 ▸ hv)
            · exact hnotV v (hdl ▸ List.mem_cons_of_mem _ hv) ht)
          (by
            intro v hv
            refine hbl v ?_
            rw [hdl]
            show v ∈ (w :: w2 :: rest2).dropLast
            rw [hdl2]
            rw [hdl2] at hv
            exact List.mem_cons_of_mem _ (by simpa using hv))
        calc (w :: w2 :: rest2).length = (w2 :: rest2).length + 1 := rfl
        _ ≤ 1 + dfsLR adj blocked start f w (sortPair cur w :: vE) (cur :: vV) := by
          omega
        _ ≤ _ := hge

/-- Soundness of the DFS: its value is the length of some admissible
continuation path. -/
theorem dfsLR_attained (adj : Nat → List Nat) (blocked : Nat → Bool) (start : Nat) :
    ∀ (fuel cur : Nat) (vE : List (Nat × Nat)) (vV : List Nat),
    ∃ ws, extOk adj blocked start cur vE vV ws ∧
      ws.length = dfsLR adj blocked start fuel cur vE vV := by
  intro fuel
  induction fuel with
  | zero =>
    intro cur vE vV
    exact ⟨[], trivial, rfl⟩
  | succ f ih =>
    intro cur vE vV
    by_cases hcur : cur ∈ vV ∨ (blocked cur = true ∧ cur ≠ start)
    · exact ⟨[], trivial, by rw [dfsLR_zero_of_fail adj blocked start (f+1) cur vE vV hcur]; rfl⟩
    · rw [dfsLR_succ adj blocked start f cur vE vV hcur]
      rcases condFold_attained (fun nb => sortPair cur nb ∈ vE)
        (fun nb => 1 + dfsLR adj blocked start f nb (sortPair cur nb :: vE) (cur :: vV))
        (adj cur) 0 with h0 | ⟨nb, hnb, hnbE, hr⟩
      · exact ⟨[], trivial, by rw [h0]; rfl⟩
      · by_cases hz : dfsLR adj blocked start f nb (sortPair cur nb :: vE) (cur :: vV) = 0
        · refine ⟨[nb], ⟨hnb, hnbE, Or.inl rfl⟩, ?_⟩
          rw [hr]
          simp [hz]
        · obtain ⟨ws2, hext2, hlen2⟩ := ih nb (sortPair cur nb :: vE) (cur :: vV)
          have hcheck := dfsLR_pos_check adj blocked start f nb
            (sortPair cur nb :: vE) (cur :: vV) hz
          refine ⟨nb :: ws2, ⟨hnb, hnbE, Or.inr ⟨hcheck, hext2⟩⟩, ?_⟩
          rw [hr]
          simp only [List.length_cons, hlen2]
          omega

/-- Every admissible continuation path satisfies the flat near-simple
conditions relative to its visited sets. -/
theorem flat_of_extOk (adj : Nat → List Nat) (blocked : Nat → Bool) (start : Nat) :
    ∀ (ws : List Nat) (cur : Nat) (vE : List (Nat × Nat)) (vV : List Nat),
    extOk adj blocked start cur vE vV ws →
    cur ∉ vV →
    List.Chain' (fun a b => b ∈ adj a) (cur :: ws) ∧
    (seqEdges (cur :: ws)).Nodup ∧
    (∀ e ∈ seqEdges (cur :: ws), e ∉ vE) ∧
    (cur :: ws).dropLast.Nodup ∧
    (∀ v ∈ (cur :: ws).dropLast, v ∉ vV) ∧
    (∀ v ∈ (cur :: ws).dropLast.tail, ¬ (blocked v = true ∧ v ≠ start)) := by
  intro ws
  induction ws with
  | nil =>
    intro cur vE vV _ hcur
    refine ⟨List.chain'_singleton _, List.nodup_nil, by simp [seqEdges], ?_, ?_, ?_⟩
    · show ([] : List Nat).Nodup
      exact List.nodup_nil
    · intro v hv
      simp at hv
    · intro v hv
      simp at hv
  | cons w rest ih =>
    intro cur vE vV hext hcur
    obtain ⟨hw, hetE, hor⟩ := hext
    cases rest with
    | nil =>
      refine ⟨List.chain'_cons.mpr ⟨hw, List.chain'_singleton _⟩, ?_, ?_, ?_, ?_, ?_⟩
      · show ([sortPair cur w] : List (Nat × Nat)).Nodup
        simp
      · intro e he
        have : e = sortPair cur w := by simpa [seqEdges] using he
        rw [this]
        exact hetE
      · show ([cur] : List Nat).Nodup
        simp
      · intro v hv
        have : v = cur := by simpa using hv
        rw [this]
        exact hcur
      · intro v hv
        simp at hv
    | cons w2 rest2 =>
      rcases hor with hnil | ⟨hcheck, hext2⟩
      · exact absurd hnil (by simp)
      · have hwnotin : w ∉ cur :: vV := fun hc => hcheck (Or.inl hc)
        have hwbl : ¬ (blocked w = true ∧ w ≠ start) := fun hc => hcheck (Or.inr hc)
        obtain ⟨ihchain, ihnodE, ihnotE, ihnodV, ihnotV, ihbl⟩ :=
          ih w (sortPair cur w :: vE) (cur :: vV) hext2 hwnotin
        have hseq : seqEdges (cur :: w :: w2 :: rest2) =
            sortPair cur w :: seqEdges (w :: w2 :: rest2) := rfl
        have hdl : (cur :: w :: w2 :: rest2).dropLast =
            cur :: (w :: w2 :: rest2).dropLast := rfl
        have hdl2 : (w :: w2 :: rest2).dropLast = w :: (w2 :: rest2).dropLast := rfl
        refine ⟨List.chain'_cons.mpr ⟨hw, ihchain⟩, ?_, ?_, ?_, ?_, ?_⟩
        · rw [hseq]
          refine List.nodup_cons.mpr ⟨?_, ihnodE⟩
          intro hc
          exact ihnotE _ hc (List.mem_cons_self _ _)
        · intro e he
          rw [hseq] at he
          rcases List.mem_cons.mp he with he2 | ht
          · rw [he2]
            exact hetE
          · intro hc
            exact ihnotE e ht (List.mem_cons_of_mem _ hc)
        · rw [hdl]
          refine List.nodup_cons.mpr ⟨?_, ihnodV⟩
          intro hc
          exact ihnotV cur hc (List.mem_cons_self _ _)
        · intro v hv
          rw [hdl] at hv
          rcases List.mem_cons.mp hv with he2 | ht
          · rw [he2]
            exact hcur
          · intro hc
            exact ihnotV v ht (List.mem_cons_of_mem _ hc)
        · intro v hv
          rw [hdl] at hv
          have hv2 : v ∈ (w :: w2 :: rest2).dropLast := by simpa using hv
          rw [hdl2] at hv2
          rcases List.mem_cons.mp hv2 with he2 | ht
          · rw [he2]
            exact hwbl
          · refine ihbl v ?_
            rw [hdl2]
            simpa using ht

theorem seqEdges_sub_of_chain (roads : List (Nat × Nat)) :
    ∀ (vs : List Nat), List.Chain' (fun a b => b ∈ adjOf roads a) vs →
    ∀ e ∈ seqEdges vs, e ∈ roads.map (fun r => sortPair r.1 r.2) := by
  intro vs
  induction vs with
  | nil => simp [seqEdges]
  | cons a tail ih =>
    cases tail with
    | nil => simp [seqEdges]
    | cons b l =>
      intro hchain e he
      obtain ⟨hab, hchain2⟩ := List.chain'_cons.mp hchain
      rcases List.mem_cons.mp he with he2 | ht
      · obtain ⟨r, hr, hc⟩ := (mem_adjOf roads a b).mp hab
        rw [he2]
        refine List.mem_map.mpr ⟨r, hr, ?_⟩
        rcases hc with ⟨h1, h2⟩ | ⟨h1, h2⟩
        · rw [h1, h2]
        · rw [h1, h2, sortPair_comm]
      · exact ih hchain2 e ht

/-- Completeness of `_calculate_player_longest_road`: no admissible
near-simple path is longer than the returned value. -/
theorem calcLongestRoad_ge_nearSimple (roads : List (Nat × Nat))
    (blocked : Nat → Bool) (vs : List Nat) (h : nearSimplePath roads blocked vs) :
    vs.length - 1 ≤ calcLongestRoad roads blocked := by
  obtain ⟨hne, hchain, hnodE, hnodV, hbl⟩ := h
  cases vs with
  | nil => exact absurd rfl hne
  | cons v0 ws =>
    cases ws with
    | nil => simp
    | cons w1 rest =>
      have hw1 : w1 ∈ adjOf roads v0 := (List.chain'_cons.mp hchain).1
      obtain ⟨e0, he0, hc0⟩ := (mem_adjOf roads v0 w1).mp hw1
      have hv0 : v0 ∈ adjKeys roads := by
        refine (mem_adjKeys roads v0).mpr ⟨e0, he0, ?_⟩
        rcases hc0 with ⟨h1, -⟩ | ⟨h1, -⟩
        · exact Or.inl h1
        · exact Or.inr h1
      have hsub : seqEdges (v0 :: w1 :: rest) ⊆ roads.map (fun r => sortPair r.1 r.2) :=
        fun e he => seqEdges_sub_of_chain roads _ hchain e he
      have hlenb : (w1 :: rest).length < roads.length + 1 := by
        have hle := (List.subperm_of_subset hnodE hsub).length_le
        rw [seqEdges_length] at hle
        simp only [List.length_map, List.length_cons] at hle ⊢
        omega
      have hentry : ¬ (v0 ∈ ([] : List Nat) ∨ (blocked v0 = true ∧ v0 ≠ v0)) := by simp
      have hmain := flat_le_dfsLR (adjOf roads) blocked v0 (w1 :: rest) v0 [] []
        (roads.length + 1) hlenb hentry hchain hnodE (by simp) hnodV (by simp)
        (by
          intro v hv hc
          rw [hbl v hv] at hc
          exact absurd hc.1 (by simp))
      have hfold := (maxFold_ge
        (fun st => dfsLR (adjOf roads) blocked st (roads.length + 1) st [] [])
        (adjKeys roads) 0).2 v0 hv0
      calc (v0 :: w1 :: rest).length - 1 = (w1 :: rest).length := by simp
      _ ≤ dfsLR (adjOf roads) blocked v0 (roads.length + 1) v0 [] [] := hmain
      _ ≤ _ := hfold

/-- Soundness of `_calculate_player_longest_road`: the returned value is the
length of some admissible near-simple path. -/
theorem calcLongestRoad_attained (roads : List (Nat × Nat)) (blocked : Nat → Bool) :
    ∃ vs, nearSimplePath roads blocked vs ∧
      vs.length - 1 = calcLongestRoad roads blocked := by
  rcases maxFold_attained
      (fun st => dfsLR (adjOf roads) blocked st (roads.length + 1) st [] [])
      (adjKeys roads) 0 with h0 | ⟨st, hst, hr⟩
  · refine ⟨[0], ⟨by simp, List.chain'_singleton _, by simp [seqEdges], by simp, by simp⟩, ?_⟩
    have hc : calcLongestRoad roads blocked = 0 := h0
    rw [hc]
    rfl
  · obtain ⟨ws, hext, hlen⟩ := dfsLR_attained (adjOf roads) blocked st
      (roads.length + 1) st [] []
    obtain ⟨hchain, hnodE, -, hnodV, -, hbl⟩ :=
      flat_of_extOk (adjOf roads) blocked st ws st [] [] hext (by simp)
    refine ⟨st :: ws, ⟨by simp, hchain, hnodE, hnodV, ?_⟩, ?_⟩
    · intro v hv
      have hvne : v ≠ st := by
        cases ws with
        | nil => simp at hv
        | cons w1 rest =>
          have hdl : (st :: w1 :: rest).dropLast = st :: (w1 :: rest).dropLast := rfl
          rw [hdl] at hv
          have hnotin := (List.nodup_cons.mp (hdl ▸ hnodV)).1
          intro hc
          rw [hc] at hv
          exact hnotin (by simpa using hv)
      have hb := hbl v hv
      cases hbv : blocked v with
      | false => rfl
      | true => exact absurd ⟨hbv, hvne⟩ hb
    · have hc : calcLongestRoad roads blocked =
          dfsLR (adjOf roads) blocked st (roads.length + 1) st [] [] := hr
      rw [hc]
      simp [hlen]

/-- C1 (amended): `_calculate_player_longest_road` returns exactly the length
of the longest *near-simple* path in the player's road network — a nonempty
vertex walk along the player's roads that repeats no edge, repeats no vertex
except possibly its final one (a single closing edge onto an earlier vertex is
counted), and whose interior vertices carry no opponent settlement.  This is
stated as: (1) every near-simple path's edge count is at most the returned
value, and (2) some near-simple path attains it.  The claim's example families
all hold — a 3-edge chain gives 3, a 6-edge simple cycle gives 6, the cycle
plus a 1-edge tail gives 7, and an 8-edge straight road with an opponent
settlement on its middle vertex gives 4 — but since near-simple paths are a
strict subset of no-edge-reuse trails, the function can undercount the longest
trail (see the counterexample of two 6-cycles joined by a bridge). -/
theorem c1_longest_road_amended :
    (∀ (roads : List (Nat × Nat)) (blocked : Nat → Bool) (vs : List Nat),
        nearSimplePath roads blocked vs →
        vs.length - 1 ≤ calcLongestRoad roads blocked) ∧
    (∀ (roads : List (Nat × Nat)) (blocked : Nat → Bool),
        ∃ vs, nearSimplePath roads blocked vs ∧
          vs.length - 1 = calcLongestRoad roads blocked) ∧
    calcLongestRoad chain3Roads (blockedFor emptyOccSt 0) = 3 ∧
    calcLongestRoad cycle6Roads (blockedFor emptyOccSt 0) = 6 ∧
    calcLongestRoad cycleTailRoads (blockedFor emptyOccSt 0) = 7 ∧
    calcLongestRoad chain8Roads (blockedFor cutSt 0) = 4 :=
  ⟨calcLongestRoad_ge_nearSimple, calcLongestRoad_attained,
    by decide, by decide, by decide, by decide⟩

/-- Witness for C1 (amended): the completeness part applied to the concrete
near-simple path 0-1-2-3 over the 3-edge chain. -/
theorem c1_longest_road_amended_witness :
    nearSimplePath chain3Roads (blockedFor emptyOccSt 0) [0, 1, 2, 3] ∧
    ([0, 1, 2, 3] : List Nat).length - 1 ≤
      calcLongestRoad chain3Roads (blockedFor emptyOccSt 0) := by
  have hch : List.Chain' (fun a b => b ∈ adjOf chain3Roads a) [0, 1, 2, 3] :=
    List.chain'_cons.mpr ⟨by decide, List.chain'_cons.mpr ⟨by decide,
      List.chain'_cons.mpr ⟨by decide, List.chain'_singleton _⟩⟩⟩
  have hnp : nearSimplePath chain3Roads (blockedFor emptyOccSt 0) [0, 1, 2, 3] :=
    ⟨by decide, hch, by decide, by decide, by decide⟩
  exact ⟨hnp, c1_longest_road_amended.1 chain3Roads (blockedFor emptyOccSt 0)
    [0, 1, 2, 3] hnp⟩
